import Mathlib

/-!
Verification development for the formula-prefixing engine and cell writer of
the openpyxl-spill repository (src/openpyxl/cell/formula_utils.py and
src/openpyxl/cell/_writer.py).

Formula text is modeled as `List Char`.  Python regular-expression operations
are embedded as specialized scanners that implement exactly the matching
semantics of the concrete patterns appearing in the source (leftmost match,
alternation order, greedy quantifiers over disjoint character classes, word
boundaries, lookbehind).  Python `while` loops whose progress depends on the
data are modeled with an explicit fuel parameter; for every loop the source
terminates on, the chosen fuel is sufficient, and a result of `none` models a
run in which the Python loop never terminates.

Python's `set` iteration order for EXCEL_NEW_FUNCTIONS is unspecified; it is
modeled here as the insertion order of the set literal.  All concrete inputs
used in theorems mention at most one registry name, for which the order of the
registry loop is immaterial.
-/

set_option maxRecDepth 10000

abbrev Chars := List Char

/-- Convert a Lean string literal to the character-list representation. -/
def chars (s : String) : Chars := s.data

/-- Python `str.isalnum` restricted to the ASCII inputs this program handles. -/
def pyAlnum (c : Char) : Bool := c.isAlpha || c.isDigit

/-- Word character for the regex `\b` boundary and `\w`: `[A-Za-z0-9_]`. -/
def isWordChar (c : Char) : Bool := pyAlnum c || c = '_'

/-- Python `\s` whitespace class (ASCII part). -/
def pySpace (c : Char) : Bool :=
  c = ' ' || c = Char.ofNat 9 || c = Char.ofNat 10 || c = Char.ofNat 13 ||
  c = Char.ofNat 11 || c = Char.ofNat 12

/-- Double-quote character. -/
def dqChar : Char := Char.ofNat 34

/-- Single-quote character. -/
def sqChar : Char := Char.ofNat 39

/-- Backslash character. -/
def bsChar : Char := Char.ofNat 92

/-- Newline character. -/
def nlChar : Char := Char.ofNat 10

/-- Python `str.strip`: drop whitespace from both ends. -/
def pyStrip (s : Chars) : Chars :=
  (s.dropWhile pySpace).reverse.dropWhile pySpace |>.reverse

/-- Whether `sub` occurs as a contiguous substring of `s` (Python `in` / `re.search` of a literal). -/
def containsSub (s sub : Chars) : Bool :=
  match s with
  | [] => sub.isPrefixOf ([] : Chars)
  | _ :: rest => sub.isPrefixOf s || containsSub rest sub

/-- Python `str.replace`: replace every non-overlapping occurrence of `pat` (nonempty) by `toS`, scanning left to right. -/
def replaceAll (fuel : Nat) (s pat toS : Chars) : Chars :=
  match fuel, s with
  | _, [] => []
  | 0, s => s
  | fuel + 1, c :: rest =>
    if pat ≠ [] && pat.isPrefixOf s then
      toS ++ replaceAll fuel (s.drop pat.length) pat toS
    else
      c :: replaceAll fuel rest pat toS

/-- Left context allows a `\b` boundary before a word-character pattern. -/
def boundaryL (prev : Option Char) : Bool :=
  match prev with
  | none => true
  | some c => !isWordChar c

/-- Right context allows a `\b` boundary after a word-character pattern. -/
def boundaryR (rest : Chars) : Bool :=
  match rest with
  | [] => true
  | c :: _ => !isWordChar c

/-- Core of `re.sub` for a literal pattern `pat` (nonempty), optionally requiring a
word boundary on the left (`bl`) and/or right (`br`) of each match, replacing with
`toS`.  Mirrors Python's leftmost non-overlapping scan. -/
def reSubLitAux (pat toS : Chars) (bl br : Bool) :
    Nat → Option Char → Chars → Chars
  | _, _, [] => []
  | 0, _, s => s
  | fuel + 1, prev, c :: rest =>
    if pat ≠ [] && pat.isPrefixOf (c :: rest) &&
        (!bl || boundaryL prev) && (!br || boundaryR ((c :: rest).drop pat.length)) then
      toS ++ reSubLitAux pat toS bl br fuel (pat.getLast?) ((c :: rest).drop pat.length)
    else
      c :: reSubLitAux pat toS bl br fuel (some c) rest

/-- Literal-pattern `re.sub` with optional word boundaries. -/
def reSubLit (pat toS : Chars) (bl br : Bool) (s : Chars) : Chars :=
  reSubLitAux pat toS bl br s.length none s

/-! ## _convert_tro_notations (formula_utils.py lines 46-112) -/

/-- The character class `[A-Z]`. -/
def upperB (c : Char) : Bool := 'A' ≤ c && c ≤ 'Z'

/-- The character class `[0-9]`. -/
def digitB (c : Char) : Bool := '0' ≤ c && c ≤ '9'

/-- Greedy parse of `[A-Z]+` (at least one). -/
def takeUpper (s : Chars) : Option (Chars × Chars) :=
  let u := s.takeWhile upperB
  if u = [] then none else some (u, s.drop u.length)

/-- Greedy parse of `[0-9]+` (at least one). -/
def takeDigits (s : Chars) : Option (Chars × Chars) :=
  let u := s.takeWhile digitB
  if u = [] then none else some (u, s.drop u.length)

/-- Parse a literal `$`. -/
def takeDollar (s : Chars) : Option (Chars × Chars) :=
  match s with
  | '$' :: rest => some (['$'], rest)
  | _ => none

/-- Sequence two greedy parsers. -/
def seqP (p q : Chars → Option (Chars × Chars)) (s : Chars) : Option (Chars × Chars) :=
  match p s with
  | none => none
  | some (a, r) =>
    match q r with
    | none => none
    | some (b, r') => some (a ++ b, r')

/-- The cell-reference alternation used by `_convert_tro_notations`, tried in the source's
alternative order with greedy quantifiers (the character classes are disjoint from the
notation characters, so no quantifier backtracking can occur):
`[A-Z]+[0-9]+ | [A-Z]+\$[0-9]+ | \$[A-Z]+[0-9]+ | \$[A-Z]+\$[0-9]+ | [A-Z]+ | \$[A-Z]+ | [0-9]+ | \$[0-9]+`. -/
def cellRefAlternatives : List (Chars → Option (Chars × Chars)) :=
  [ seqP takeUpper takeDigits,
    seqP takeUpper (seqP takeDollar takeDigits),
    seqP takeDollar (seqP takeUpper takeDigits),
    seqP takeDollar (seqP takeUpper (seqP takeDollar takeDigits)),
    takeUpper,
    seqP takeDollar takeUpper,
    takeDigits,
    seqP takeDollar takeDigits ]

/-- Try parsers in order; a later continuation decides whether an alternative's result
is accepted (regex alternation with backtracking to the next alternative). -/
def firstAlt (alts : List (Chars → Option (Chars × Chars)))
    (k : Chars → Chars → Option (Chars × Chars)) (s : Chars) : Option (Chars × Chars) :=
  match alts with
  | [] => none
  | p :: ps =>
    match p s with
    | some (a, r) =>
      match k a r with
      | some res => some res
      | none => firstAlt ps k s
    | none => firstAlt ps k s

/-- The notation alternation `(\.:\.|:\.|\.:)`, tried in source order. -/
def takeTroNotation (s : Chars) : Option (Chars × Chars) :=
  if (chars ".:.").isPrefixOf s then some (chars ".:.", s.drop 3)
  else if (chars ":.").isPrefixOf s then some (chars ":.", s.drop 2)
  else if (chars ".:").isPrefixOf s then some (chars ".:", s.drop 2)
  else none

/-- Map a matched notation to its replacement function name. -/
def troName (n : Chars) : Chars :=
  if n = chars ".:." then chars "_TRO_ALL"
  else if n = chars ":." then chars "_TRO_TRAILING"
  else chars "_TRO_LEADING"

/-- Attempt the plain pattern `cell (\.:\.|:\.|\.:) cell` at the head of `s`;
returns the replacement text and the rest of the input. -/
def troPlainMatch (s : Chars) : Option (Chars × Chars) :=
  firstAlt cellRefAlternatives
    (fun startCell r =>
      match takeTroNotation r with
      | none => none
      | some (nt, r') =>
        match firstAlt cellRefAlternatives (fun e r'' => some (e, r'')) r' with
        | none => none
        | some (endCell, rest) =>
          some (troName nt ++ chars "(" ++ startCell ++ chars ":" ++ endCell ++ chars ")", rest))
    s

/-- Greedy parse of `[A-Za-z0-9_]+` followed by `!` (the sheet qualifier group). -/
def takeSheet (s : Chars) : Option (Chars × Chars) :=
  let u := s.takeWhile isWordChar
  if u = [] then none
  else
    match s.drop u.length with
    | '!' :: rest => some (u ++ ['!'], rest)
    | _ => none

/-- Attempt the sheet-qualified pattern `([A-Za-z0-9_]+!) cell notation cell` at the head of `s`. -/
def troSheetMatch (s : Chars) : Option (Chars × Chars) :=
  match takeSheet s with
  | none => none
  | some (sheet, r) =>
    firstAlt cellRefAlternatives
      (fun startCell r' =>
        match takeTroNotation r' with
        | none => none
        | some (nt, r'') =>
          match firstAlt cellRefAlternatives (fun e rr => some (e, rr)) r'' with
          | none => none
          | some (endCell, rest) =>
            some (troName nt ++ chars "(" ++ sheet ++ startCell ++ chars ":" ++
                  sheet ++ endCell ++ chars ")", rest))
      r

/-- Scan of `re.sub` over the whole text with a head-matcher: on a match emit the
replacement and continue after the matched span, otherwise copy one character. -/
def reSubScan (m : Chars → Option (Chars × Chars)) : Nat → Chars → Chars
  | _, [] => []
  | 0, s => s
  | fuel + 1, c :: rest =>
    match m (c :: rest) with
    | some (rep, after) =>
      if after.length < (c :: rest).length then
        rep ++ reSubScan m fuel after
      else
        c :: reSubScan m fuel rest
    | none => c :: reSubScan m fuel rest

/-- Embedding of `_convert_tro_notations`: first the sheet-qualified pattern, then the
plain pattern, each as a global `re.sub`. -/
def convertTroNotations (s : Chars) : Chars :=
  let r := reSubScan troSheetMatch s.length s
  reSubScan troPlainMatch r.length r

/-! ## Shared argument splitter (formula_utils.py lines 386-421 and 810-845) -/

/-- One shot of the quote-toggle logic shared by every scanner in the source:
given the current character, the previous character, and the string state,
return the updated `(inString, quoteChar)` pair.  A quote character toggles the
state when it is not escaped by a preceding backslash. -/
def quoteStep (c : Char) (prev : Option Char) (inString : Bool)
    (quote : Option Char) : Bool × Option Char :=
  if (c = dqChar || c = sqChar) && prev ≠ some bsChar then
    if !inString then (true, some c)
    else if some c = quote then (false, none)
    else (inString, quote)
  else (inString, quote)

/-- Loop body state for the comma splitter: accumulated parts, current part,
parenthesis depth, brace depth, string state. -/
structure SplitSt where
  parts : List Chars
  current : Chars
  parenDepth : Int
  braceDepth : Int
  inString : Bool
  quote : Option Char

/-- Character loop of the comma splitter used by `_add_xlpm_to_lambda_params`
and `_add_xlpm_to_let_vars`: split on commas at parenthesis depth 0 and brace
depth 0 outside string literals; each completed part is stripped. -/
def splitPartsAux (prev : Option Char) (st : SplitSt) : Chars → SplitSt
  | [] => st
  | c :: rest =>
    let (inS, q) := quoteStep c prev st.inString st.quote
    if !inS then
      if c = '(' then
        splitPartsAux (some c)
          { st with parenDepth := st.parenDepth + 1, inString := inS, quote := q,
                    current := st.current ++ [c] } rest
      else if c = ')' then
        splitPartsAux (some c)
          { st with parenDepth := st.parenDepth - 1, inString := inS, quote := q,
                    current := st.current ++ [c] } rest
      else if c = '{' then
        splitPartsAux (some c)
          { st with braceDepth := st.braceDepth + 1, inString := inS, quote := q,
                    current := st.current ++ [c] } rest
      else if c = '}' then
        splitPartsAux (some c)
          { st with braceDepth := st.braceDepth - 1, inString := inS, quote := q,
                    current := st.current ++ [c] } rest
      else if c = ',' && st.parenDepth = 0 && st.braceDepth = 0 then
        splitPartsAux (some c)
          { st with parts := st.parts ++ [pyStrip st.current], current := [],
                    inString := inS, quote := q } rest
      else
        splitPartsAux (some c)
          { st with inString := inS, quote := q, current := st.current ++ [c] } rest
    else
      splitPartsAux (some c)
        { st with inString := inS, quote := q, current := st.current ++ [c] } rest

/-- Split a balanced argument list on top-level commas (result parts stripped;
a nonempty trailing fragment is kept, an empty one dropped). -/
def splitParts (content : Chars) : List Chars :=
  let st := splitPartsAux none ⟨[], [], 0, 0, false, none⟩ content
  if st.current ≠ [] then st.parts ++ [pyStrip st.current] else st.parts

/-! ## _replace_var_refs_outside_strings (formula_utils.py lines 526-588) -/

/-- Boundary check before a variable occurrence:
`i == 0 or not text[i-1].isalnum() and text[i-1] != '_'`. -/
def varBoundaryL (prev : Option Char) : Bool :=
  match prev with
  | none => true
  | some c => !pyAlnum c && c ≠ '_'

/-- Boundary check after a variable occurrence. -/
def varBoundaryR (rest : Chars) : Bool :=
  match rest with
  | [] => true
  | c :: _ => !pyAlnum c && c ≠ '_'

/-- Find the first variable name (in list order) matching at the head of `s`
with word boundaries on both sides. -/
def findVarMatch (names : List Chars) (prev : Option Char) (s : Chars) : Option Chars :=
  match names with
  | [] => none
  | n :: ns =>
    if n.isPrefixOf s && varBoundaryL prev && varBoundaryR (s.drop n.length) then
      some n
    else findVarMatch ns prev s

/-- Character loop of `_replace_var_refs_outside_strings`.  `none` models the
case in which the Python loop never terminates (an empty variable name matching
at the current position keeps the index from advancing). -/
def replaceVarRefsAux (names : List Chars) :
    Nat → Option Char → Bool → Option Char → Chars → Option Chars
  | _, _, _, _, [] => some []
  | 0, _, _, _, _ :: _ => none
  | fuel + 1, prev, inString, quote, c :: rest =>
    if (c = dqChar || c = sqChar) && prev ≠ some bsChar then
      if !inString then
        (replaceVarRefsAux names fuel (some c) true (some c) rest).map (c :: ·)
      else if some c = quote then
        (replaceVarRefsAux names fuel (some c) false none rest).map (c :: ·)
      else
        (replaceVarRefsAux names fuel (some c) inString quote rest).map (c :: ·)
    else if inString then
      (replaceVarRefsAux names fuel (some c) inString quote rest).map (c :: ·)
    else
      match findVarMatch names prev (c :: rest) with
      | some n =>
        if n = [] then none
        else
          (replaceVarRefsAux names fuel (n.getLast?) inString quote
            ((c :: rest).drop n.length)).map (fun r => chars "_xlpm." ++ n ++ r)
      | none =>
        (replaceVarRefsAux names fuel (some c) inString quote rest).map (c :: ·)

/-- Embedding of `_replace_var_refs_outside_strings`: replace whole-token
occurrences of the given variable names outside string literals with their
`_xlpm.`-prefixed forms. -/
def replaceVarRefsOutsideStrings (text : Chars) (varNames : List Chars) : Option Chars :=
  if varNames = [] then some text
  else replaceVarRefsAux varNames text.length none false none text

/-! ## EXCEL_NEW_FUNCTIONS registry (formula_utils.py lines 14-34) -/

/-- The function registry, in the order the names appear in the source's set
literal (Python set iteration order is unspecified; every concrete input used
in a theorem mentions at most one registry name, making the order immaterial
for those inputs). -/
def excelNewFunctions : List Chars :=
  [chars "UNIQUE", chars "SORT", chars "SORTBY", chars "FILTER", chars "SEQUENCE",
   chars "RANDARRAY", chars "XLOOKUP", chars "XMATCH",
   chars "VSTACK", chars "HSTACK", chars "TAKE", chars "DROP",
   chars "CHOOSEROWS", chars "CHOOSECOLS", chars "EXPAND", chars "TOCOL", chars "TOROW",
   chars "WRAPCOLS", chars "WRAPROWS",
   chars "ARRAYTOTEXT", chars "VALUETOTEXT", chars "TEXTAFTER", chars "TEXTBEFORE",
   chars "TEXTSPLIT",
   chars "REGEXEXTRACT", chars "REGEXREPLACE", chars "REGEXTEST",
   chars "LAMBDA", chars "LET",
   chars "ISOMITTED", chars "MAP", chars "REDUCE", chars "SCAN", chars "BYCOL",
   chars "BYROW", chars "MAKEARRAY",
   chars "GROUPBY", chars "PIVOTBY", chars "PERCENTOF",
   chars "TRIMRANGE",
   chars "_TRO_ALL", chars "_TRO_TRAILING", chars "_TRO_LEADING"]

/-! ## _add_xlpm_to_lambda_params (formula_utils.py lines 358-464) -/

/-- Match `LAMBDA\s*\(` at the head of `s`, returning the number of characters
consumed (6 + whitespace + 1). -/
def matchLambdaOpen (s : Chars) : Option Nat :=
  if (chars "LAMBDA").isPrefixOf s then
    let rest := s.drop 6
    let ws := rest.takeWhile pySpace
    match rest.drop ws.length with
    | '(' :: _ => some (6 + ws.length + 1)
    | _ => none
  else none

/-- Lazy search for `(.*?LAMBDA\s*\()` without crossing a newline: the least
position where `LAMBDA\s*\(` matches.  Returns the prefix group (everything up
to and including the opening parenthesis) and the rest. -/
def findLambdaOpen : Nat → Chars → Chars → Option (Chars × Chars)
  | _, _, [] => none
  | 0, _, _ => none
  | fuel + 1, pre, s =>
    match matchLambdaOpen s with
    | some k => some (pre ++ s.take k, s.drop k)
    | none =>
      match s with
      | c :: rest => if c = nlChar then none else findLambdaOpen fuel (pre ++ [c]) rest
      | [] => none

/-- Greedy match of `(.+)(\))` on `rest`: the largest `j ≥ 1` with `rest[j] = ')'`
and no newline among the first `j` characters; returns the content group. -/
def greedyContentClose (rest : Chars) : Option Chars :=
  let upto := rest.takeWhile (· ≠ nlChar)
  let rec lastClose : List Char → Option Nat
    | [] => none
    | c :: cs =>
      match lastClose cs with
      | some j => some (j + 1)
      | none => if c = ')' then some 0 else none
  match lastClose upto with
  | some j => if 1 ≤ j then some (upto.take j) else none
  | none => none

/-- Regex `(.*?LAMBDA\s*\()(.+)(\))` of `_add_xlpm_to_lambda_params`: returns
the prefix group (lazy, includes the opening parenthesis) and the content
group (greedy, up to the last closing parenthesis). -/
def lambdaParse (s : Chars) : Option (Chars × Chars) :=
  match findLambdaOpen (s.length + 1) [] s with
  | none => none
  | some (pre, rest) =>
    match greedyContentClose rest with
    | some content => some (pre, content)
    | none => none

/-- Process one declared parameter: bracket-wrapped names get the `_xlop.`
marker, bare names the `_xlpm.` marker; returns the serialized parameter and
the bare name recorded for the scope. -/
def processParam (param : Chars) : Chars × Chars :=
  let p := pyStrip param
  if p.head? = some '[' && p.getLast? = some ']' then
    let name := pyStrip (p.drop 1 |>.dropLast)
    (chars "_xlop." ++ name, name)
  else
    (chars "_xlpm." ++ p, p)

/-- Join parts with commas (Python `','.join`). -/
def joinComma (ps : List Chars) : Chars :=
  match ps with
  | [] => []
  | [p] => p
  | p :: rest => p ++ chars "," ++ joinComma rest

/-- Apply `re.sub(r'\bFUNC\(', '_xlfn.FUNC(', e)` for every registry function
except LAMBDA and LET, in registry order (lines 454-456 of the source). -/
def tagBodyFunctions (e : Chars) : Chars :=
  excelNewFunctions.foldl
    (fun acc f =>
      if f = chars "LAMBDA" || f = chars "LET" then acc
      else reSubLit (f ++ chars "(") (chars "_xlfn." ++ f ++ chars "(") true false acc)
    e

/-- Embedding of `_add_xlpm_to_lambda_params`: rewrite one LAMBDA expression's
parameter list and body.  Returns the input unchanged when the regex does not
match or fewer than two top-level parts are present. -/
def addXlpmToLambdaParams (lambdaExpr : Chars) : Option Chars :=
  match lambdaParse lambdaExpr with
  | none => some lambdaExpr
  | some (pre, content) =>
    let parts := splitParts content
    if parts.length < 2 then some lambdaExpr
    else
      let params := parts.dropLast
      let expression := parts.getLast?.getD []
      let processed := params.map processParam
      let processedParams := processed.map Prod.fst
      let paramNames := processed.map Prod.snd
      match replaceVarRefsOutsideStrings expression paramNames with
      | none => none
      | some pe =>
        let pe := tagBodyFunctions pe
        let pre' :=
          if containsSub pre (chars "_xlfn.LAMBDA") then pre
          else replaceAll pre.length pre (chars "LAMBDA") (chars "_xlfn.LAMBDA")
        some (pre' ++ joinComma (processedParams ++ [pe]) ++ chars ")")

/-! ## _process_lambda_function (formula_utils.py lines 218-293) -/

/-- Balanced-close scanner of the LAMBDA loop (lines 246-270): counts parens
outside string literals starting at depth 1; returns the number of characters
consumed up to and including the matching close, or `none` if the text is
exhausted first. -/
def scanCloseStr (prev : Option Char) (parenCount : Int) (inString : Bool)
    (quote : Option Char) : Chars → Option Nat
  | [] => if parenCount ≤ 0 then some 0 else none
  | c :: rest =>
    if parenCount ≤ 0 then some 0
    else
      let (inS, q) := quoteStep c prev inString quote
      let pc :=
        if !inS then
          if c = '(' then parenCount + 1
          else if c = ')' then parenCount - 1
          else parenCount
        else parenCount
      match scanCloseStr (some c) pc inS q rest with
      | some n => some (n + 1)
      | none => none

/-- Matches of `(?<!_xlfn\.)LAMBDA\s*\(` via `re.finditer`: scan left to right,
non-overlapping; `revPre` is the already-scanned text reversed (for the
lookbehind).  Returns `(start, endOfMatch)` pairs. -/
def lambdaOpenMatches : Nat → Chars → Nat → Chars → List (Nat × Nat)
  | _, _, _, [] => []
  | 0, _, _, _ => []
  | fuel + 1, revPre, i, s =>
    match matchLambdaOpen s with
    | some k =>
      if (chars "_xlfn.").reverse.isPrefixOf revPre then
        match s with
        | c :: rest => lambdaOpenMatches fuel (c :: revPre) (i + 1) rest
        | [] => []
      else
        (i, i + k) :: lambdaOpenMatches fuel ((s.take k).reverse ++ revPre) (i + k) (s.drop k)
    | none =>
      match s with
      | c :: rest => lambdaOpenMatches fuel (c :: revPre) (i + 1) rest
      | [] => []

/-- All complete LAMBDA spans `(start, end, length)` found in one pass of the
source's `while True` loop (lines 240-273): each keyword match whose balanced
close is found contributes a span. -/
def lambdaPositions (s : Chars) : List (Nat × Nat × Nat) :=
  (lambdaOpenMatches (s.length + 1) [] 0 s).filterMap
    (fun (st, en) =>
      match scanCloseStr (some '(') 1 false none (s.drop en) with
      | some consumed => some (st, en + consumed, en + consumed - st)
      | none => none)

/-- First element of minimal length (Python's stable sort by length followed by
taking element 0). -/
def pickMinLen (ps : List (Nat × Nat × Nat)) : Option (Nat × Nat × Nat) :=
  match ps with
  | [] => none
  | p :: rest => some (rest.foldl (fun acc q => if q.2.2 < acc.2.2 then q else acc) p)

/-- Splice `mid` into `s` over the span `[a, b)`. -/
def spliceChars (s : Chars) (a b : Nat) (mid : Chars) : Chars :=
  s.take a ++ mid ++ s.drop b

/-- Fueled embedding of the `while True` LAMBDA loop of
`_process_lambda_function` (lines 239-285): repeatedly rewrite the innermost
unprefixed LAMBDA span.  `none` models a run of the Python loop that never
terminates (no fuel bound suffices). -/
def processLambdaLoopF (fuel : Nat) (s : Chars) : Option Chars :=
  match pickMinLen (lambdaPositions s) with
  | none => some s
  | some (st, en, _) =>
    match fuel with
    | 0 => none
    | n + 1 =>
      match addXlpmToLambdaParams ((s.take en).drop st) with
      | none => none
      | some pe => processLambdaLoopF n (spliceChars s st en pe)

/-! ## _add_xlpm_to_let_vars (formula_utils.py lines 782-875) -/

/-- Match `_xlfn\.LET\s*\(` at the head of `s`, returning the characters consumed. -/
def matchLetOpen (s : Chars) : Option Nat :=
  if (chars "_xlfn.LET").isPrefixOf s then
    let rest := s.drop 9
    let ws := rest.takeWhile pySpace
    match rest.drop ws.length with
    | '(' :: _ => some (9 + ws.length + 1)
    | _ => none
  else none

/-- Regex `(_xlfn\.LET\s*\()(.+)(\)$)` anchored at the start: the prefix group,
and the content group, which must be nonempty, newline-free, and followed by a
final `)` at the very end of the string. -/
def letParse (s : Chars) : Option (Chars × Chars) :=
  match matchLetOpen s with
  | none => none
  | some k =>
    let rest := s.drop k
    if rest.getLast? = some ')' then
      let content := rest.dropLast
      if content ≠ [] && !content.contains nlChar then
        some (s.take k, content)
      else none
    else none

/-- Loop over the variable/value pairs of a LET construct (lines 856-871):
each value is rewritten using only the names accumulated from earlier bindings
(`var_names[:-1]`), the final expression using all names.  An empty value part
contributes no element (`if var_value:`). -/
def letLoop : List Chars → List Chars → Option (List Chars)
  | [], _ => some []
  | [finalExpr], names =>
    (replaceVarRefsOutsideStrings finalExpr names).map (fun fe => [fe])
  | vn :: vv :: rest, names =>
    let name := pyStrip vn
    if vv = [] then
      (letLoop rest (names ++ [name])).map (fun r => (chars "_xlpm." ++ name) :: r)
    else
      match replaceVarRefsOutsideStrings vv names with
      | none => none
      | some pv =>
        match letLoop rest (names ++ [name]) with
        | none => none
        | some r => some ((chars "_xlpm." ++ name) :: pv :: r)

/-- Embedding of `_add_xlpm_to_let_vars`: rewrite one LET expression.  Returns
the input unchanged when the regex does not match or the top-level part count
is below 3 or even. -/
def addXlpmToLetVars (letExpr : Chars) : Option Chars :=
  match letParse letExpr with
  | none => some letExpr
  | some (pre, content) =>
    let parts := splitParts content
    if parts.length < 3 || parts.length % 2 = 0 then some letExpr
    else
      match letLoop parts [] with
      | none => none
      | some processed => some (pre ++ joinComma processed ++ chars ")")

/-! ## _process_let_variables (formula_utils.py lines 467-523) -/

/-- Find the least index `i ≥ 0` in `s` at which `_xlfn\.LET\s*\(` matches
(`re.search`). -/
def findLetOpen : Nat → Nat → Chars → Option Nat
  | _, _, [] => none
  | 0, _, _ => none
  | fuel + 1, i, s =>
    match matchLetOpen s with
    | some _ => some i
    | none =>
      match s with
      | _ :: rest => findLetOpen fuel (i + 1) rest
      | [] => none

/-- Plain balanced-close scanner (lines 504-509): no string awareness; returns
characters consumed up to and including the matching close. -/
def scanClosePlain (parenCount : Int) : Chars → Option Nat
  | [] => if parenCount ≤ 0 then some 0 else none
  | c :: rest =>
    if parenCount ≤ 0 then some 0
    else
      let pc := if c = '(' then parenCount + 1 else if c = ')' then parenCount - 1 else parenCount
      match scanClosePlain pc rest with
      | some n => some (n + 1)
      | none => none

/-- Fueled embedding of the `while True` loop of `_process_let_variables`:
find each `_xlfn.LET(`, rewrite the balanced construct, and continue after it.
Note the source sets `let_end = let_start + len('_xlfn.LET(')` regardless of
whitespace in the match. -/
def processLetLoopF (fuel : Nat) (cur : Chars) (start : Nat) : Option Chars :=
  match fuel with
  | 0 => none
  | fuelN + 1 =>
    match findLetOpen ((cur.drop start).length + 1) 0 (cur.drop start) with
    | none => some cur
    | some off =>
      let letStart := start + off
      let letEnd := letStart + 10
      match scanClosePlain 1 (cur.drop letEnd) with
      | some consumed =>
        let pos := letEnd + consumed
        match addXlpmToLetVars ((cur.take pos).drop letStart) with
        | none => none
        | some processed =>
          processLetLoopF fuelN (spliceChars cur letStart pos processed)
            (letStart + processed.length)
      | none => processLetLoopF fuelN cur letEnd

/-- Embedding of `_process_let_variables`. -/
def processLetVariables (s : Chars) : Option Chars :=
  processLetLoopF (s.length + 1) s 0

/-- Embedding of `_process_lambda_function` (lines 218-293): the LAMBDA loop,
then `re.sub(r'\bLET\b', '_xlfn.LET', ...)`, then the LET-variable pass. -/
def processLambdaFunction (s : Chars) : Option Chars :=
  match processLambdaLoopF (s.length + 1) s with
  | none => none
  | some t =>
    let t := reSubLit (chars "LET") (chars "_xlfn.LET") true true t
    processLetVariables t

/-! ## _find_argument_positions (formula_utils.py lines 681-727) -/

/-- State of the argument-position scanner. -/
structure ArgPosSt where
  positions : List (Nat × Nat)
  currentStart : Nat
  parenDepth : Int
  braceDepth : Int
  inString : Bool
  quote : Option Char

/-- Character loop of `_find_argument_positions`. -/
def findArgPosAux (prev : Option Char) (i : Nat) (st : ArgPosSt) : Chars → ArgPosSt
  | [] => st
  | c :: rest =>
    let (inS, q) := quoteStep c prev st.inString st.quote
    let st' :=
      if !inS then
        if c = '(' then { st with parenDepth := st.parenDepth + 1, inString := inS, quote := q }
        else if c = ')' then { st with parenDepth := st.parenDepth - 1, inString := inS, quote := q }
        else if c = '{' then { st with braceDepth := st.braceDepth + 1, inString := inS, quote := q }
        else if c = '}' then { st with braceDepth := st.braceDepth - 1, inString := inS, quote := q }
        else if c = ',' && st.parenDepth = 0 && st.braceDepth = 0 then
          { st with positions := st.positions ++ [(st.currentStart, i)],
                    currentStart := i + 1, inString := inS, quote := q }
        else { st with inString := inS, quote := q }
      else { st with inString := inS, quote := q }
    findArgPosAux (some c) (i + 1) st' rest

/-- Embedding of `_find_argument_positions`: start/end index pairs of each
top-level argument (unstripped; a trailing empty fragment is dropped). -/
def findArgumentPositions (text : Chars) : List (Nat × Nat) :=
  let st := findArgPosAux none 0 ⟨[], 0, 0, 0, false, none⟩ text
  if st.currentStart < text.length then st.positions ++ [(st.currentStart, text.length)]
  else st.positions

/-! ## _add_xleta_to_aggregate_functions (formula_utils.py lines 590-678) -/

/-- Match of `re.match(r'\s*_xlfn\.LAMBDA\s*\(', arg)`: is the target argument
an already-rewritten LAMBDA construct? -/
def isLambdaArg (arg : Chars) : Bool :=
  let r := arg.dropWhile pySpace
  if (chars "_xlfn.LAMBDA").isPrefixOf r then
    match (r.drop 12).dropWhile pySpace with
    | '(' :: _ => true
    | _ => false
  else false

/-- Match of `re.match(r'^(\s*)((?:_xlfn\.)?[A-Z]+)(\s*(?:\(.*\))?\s*)$', arg)`:
returns the three groups (leading whitespace, optionally `_xlfn.`-prefixed
upper-case name, the rest). -/
def aggArgMatch (arg : Chars) : Option (Chars × Chars × Chars) :=
  let ws1 := arg.takeWhile pySpace
  let r1 := arg.drop ws1.length
  let tryName : Chars → Option (Chars × Chars) := fun s =>
    let u := s.takeWhile (fun c => 'A' ≤ c && c ≤ 'Z')
    if u = [] then none else some (u, s.drop u.length)
  let core :=
    if (chars "_xlfn.").isPrefixOf r1 then
      match tryName (r1.drop 6) with
      | some (u, r2) => some (chars "_xlfn." ++ u, r2)
      | none => tryName r1
    else tryName r1
  match core with
  | none => none
  | some (nm, r2) =>
    let ws2 := r2.takeWhile pySpace
    let r3 := r2.drop ws2.length
    match r3 with
    | [] => some (ws1, nm, r2)
    | '(' :: tl =>
      let rec closeThenWs : List Char → Bool
        | [] => false
        | c :: cs =>
          if c = nlChar then false
          else (c = ')' && cs.all pySpace) || closeThenWs cs
      if closeThenWs tl then some (ws1, nm, r2) else none
    | _ => none

/-- The per-occurrence decision of the xleta pass (lines 647-673): given the
target argument, return the replacement argument if one is made. -/
def xletaProcessArg (arg : Chars) : Option Chars :=
  if isLambdaArg arg then none
  else
    match aggArgMatch arg with
    | none => none
    | some (ws1, nm, suf) =>
      if containsSub arg (chars "_xleta.") then none
      else
        let nmOnly := if (chars "_xlfn.").isPrefixOf nm then nm.drop 6 else nm
        some (ws1 ++ chars "_xleta." ++ nmOnly ++ suf)

/-- Find the least index at which `_xlfn\.FUNC\s*\(` matches, together with the
match length (`re.search`). -/
def findAggOpen (funcName : Chars) : Nat → Nat → Chars → Option (Nat × Nat)
  | _, _, [] => none
  | 0, _, _ => none
  | fuel + 1, i, s =>
    let pat := chars "_xlfn." ++ funcName
    let matchLen :=
      if pat.isPrefixOf s then
        let rest := s.drop pat.length
        let ws := rest.takeWhile pySpace
        match rest.drop ws.length with
        | '(' :: _ => some (pat.length + ws.length + 1)
        | _ => none
      else none
    match matchLen with
    | some k => some (i, k)
    | none =>
      match s with
      | _ :: rest => findAggOpen funcName fuel (i + 1) rest
      | [] => none

/-- Fueled embedding of one function's `while True` loop in
`_add_xleta_to_aggregate_functions`. -/
def xletaLoopF (funcName : Chars) (targetArgPos : Nat) :
    Nat → Chars → Nat → Option Chars
  | 0, _, _ => none
  | fuel + 1, cur, pos =>
    match findAggOpen funcName ((cur.drop pos).length + 1) 0 (cur.drop pos) with
    | none => some cur
    | some (off, mlen) =>
      let funcEnd := pos + off + mlen
      match scanClosePlain 1 (cur.drop funcEnd) with
      | some consumed =>
        -- consumed counts up to and including the close; the close itself is at funcEnd+consumed-1
        let funcClosePos := funcEnd + consumed - 1
        let argsText := (cur.take funcClosePos).drop funcEnd
        let positions := findArgumentPositions argsText
        if targetArgPos ≤ positions.length then
          match positions.get? (targetArgPos - 1) with
          | some (argStart, argEnd) =>
            let targetArg := (argsText.take argEnd).drop argStart
            match xletaProcessArg targetArg with
            | some newArg =>
              xletaLoopF funcName targetArgPos fuel
                (spliceChars cur (funcEnd + argStart) (funcEnd + argEnd) newArg)
                (funcEnd + argStart + newArg.length)
            | none => xletaLoopF funcName targetArgPos fuel cur funcEnd
          | none => xletaLoopF funcName targetArgPos fuel cur funcEnd
        else xletaLoopF funcName targetArgPos fuel cur funcEnd
      | none => xletaLoopF funcName targetArgPos fuel cur funcEnd

/-- Embedding of `_add_xleta_to_aggregate_functions`: GROUPBY's 3rd argument,
then PIVOTBY's 4th argument (dict insertion order). -/
def addXletaToAggregateFunctions (s : Chars) : Option Chars :=
  match xletaLoopF (chars "GROUPBY") 3 (s.length + 1) s 0 with
  | none => none
  | some t => xletaLoopF (chars "PIVOTBY") 4 (t.length + 1) t 0

/-! ## _add_function_prefix (formula_utils.py lines 115-215) -/

/-- The registry loop of `_add_function_prefix` (lines 196-203): for each
registry name other than LAMBDA and LET, if neither `_xlfn.NAME` nor
`_xlws.NAME` occurs, substitute `\bNAME\b` with `_xlfn.NAME`. -/
def registryLoop (s : Chars) : Chars :=
  excelNewFunctions.foldl
    (fun acc f =>
      if f = chars "LAMBDA" || f = chars "LET" then acc
      else if containsSub acc (chars "_xlfn." ++ f) || containsSub acc (chars "_xlws." ++ f) then acc
      else reSubLit f (chars "_xlfn." ++ f) true true acc)
    s

/-- The SORT/FILTER double-prefix fix (lines 205-210). -/
def sortFilterFix (s : Chars) : Chars :=
  let s :=
    if containsSub s (chars "_xlfn._xlws.SORT") then s
    else reSubLit (chars "_xlfn.SORT") (chars "_xlfn._xlws.SORT") false true s
  if containsSub s (chars "_xlfn._xlws.FILTER") then s
  else reSubLit (chars "_xlfn.FILTER") (chars "_xlfn._xlws.FILTER") false true s

/-- Embedding of `_add_function_prefix`, the formula-prefixing engine: TRO
desugaring, LAMBDA/LET closure rewriting, registry tagging, the SORT/FILTER
double prefix, and the aggregate-argument pass.  `none` models a run on which
the source never terminates. -/
def addFunctionPrefix (formulaText : Chars) : Option Chars :=
  if formulaText = [] || formulaText.head? ≠ some '=' then some formulaText
  else
    let t := formulaText.drop 1
    let t := convertTroNotations t
    match processLambdaFunction t with
    | none => none
    | some t =>
      let t := registryLoop t
      let t := sortFilterFix t
      match addXletaToAggregateFunctions t with
      | none => none
      | some t => some ('=' :: t)

/-! ## _protect_string_literals / _restore_string_literals (formula_utils.py lines 296-356) -/

/-- Decimal digits of a natural number (placeholder indices are small). -/
def natChars (fuel n : Nat) : Chars :=
  match fuel with
  | 0 => []
  | fuel + 1 =>
    if n < 10 then [Char.ofNat (48 + n)]
    else natChars fuel (n / 10) ++ [Char.ofNat (48 + n % 10)]

/-- Non-overlapping matches of `\{[^\}]*\}` as `(start, length, matchedText)` triples. -/
def arrayMatches : Nat → Nat → Chars → List (Nat × Nat × Chars)
  | _, _, [] => []
  | 0, _, _ => []
  | fuel + 1, i, s =>
    match s with
    | '{' :: rest =>
      let body := rest.takeWhile (· ≠ '}')
      match rest.drop body.length with
      | '}' :: after =>
        let m := '{' :: body ++ ['}']
        (i, m.length, m) :: arrayMatches fuel (i + m.length) after
      | _ => arrayMatches fuel (i + 1) rest
    | _ :: rest => arrayMatches fuel (i + 1) rest
    | [] => []

/-- Non-overlapping matches of `"([^"]*)"` as `(start, length, matchedText)`
triples; the matched text includes the quotes (`match.group(0)`). -/
def stringMatches : Nat → Nat → Chars → List (Nat × Nat × Chars)
  | _, _, [] => []
  | 0, _, _ => []
  | fuel + 1, i, s =>
    match s with
    | c :: rest =>
      if c = dqChar then
        let body := rest.takeWhile (· ≠ dqChar)
        match rest.drop body.length with
        | c2 :: after =>
          if c2 = dqChar then
            let m := dqChar :: body ++ [dqChar]
            (i, m.length, m) :: stringMatches fuel (i + m.length) after
          else stringMatches fuel (i + 1) rest
        | [] => stringMatches fuel (i + 1) rest
      else stringMatches fuel (i + 1) rest
    | [] => []

/-- The `for match in reversed(matches)` splice loops of
`_protect_string_literals`: matches are replaced from the rightmost to the
leftmost, and the placeholder index is `len(literals)` at processing time
(starting from `base`), so the rightmost match receives the lowest index. -/
def spliceMatchesRev (tag : Chars) (base : Nat) (ms : List (Nat × Nat × Chars))
    (text : Chars) : Chars :=
  match ms with
  | [] => text
  | (st, len, _) :: rest =>
    let t1 := spliceMatchesRev tag base rest text
    spliceChars t1 st (st + len) (tag ++ natChars 24 (base + rest.length) ++ chars "__")

/-- Embedding of `_protect_string_literals`: mask array literals, then string
literals, returning the protected text and the literal list (each loop inserts
at the front, so the final list holds the string literals left-to-right
followed by the array literals left-to-right). -/
def protectStringLiterals (text : Chars) : Chars × List Chars :=
  let ams := arrayMatches (text.length + 1) 0 text
  let t1 := spliceMatchesRev (chars "__ARRAY_") 0 ams text
  let sms := stringMatches (t1.length + 1) 0 t1
  let t2 := spliceMatchesRev (chars "__STRING_") ams.length sms t1
  (t2, sms.map (fun m => m.2.2) ++ ams.map (fun m => m.2.2))

/-- Inner loop of `_restore_string_literals`: for index `i` and literal `lit`,
replace `__STRING_i__` and then `__ARRAY_i__` by `lit`. -/
def restoreAux (i : Nat) (lits : List Chars) (t : Chars) : Chars :=
  match lits with
  | [] => t
  | lit :: rest =>
    let t := replaceAll t.length t (chars "__STRING_" ++ natChars 24 i ++ chars "__") lit
    let t := replaceAll t.length t (chars "__ARRAY_" ++ natChars 24 i ++ chars "__") lit
    restoreAux (i + 1) rest t

/-- Embedding of `_restore_string_literals`. -/
def restoreStringLiterals (text : Chars) (literals : List Chars) : Chars :=
  restoreAux 0 literals text

/-- Shield/unshield round trip. -/
def shieldRoundTrip (text : Chars) : Chars :=
  let (p, lits) := protectStringLiterals text
  restoreStringLiterals p lits

/-! ## Cell writer (src/openpyxl/cell/_writer.py) -/

/-- Cell value slot, discriminating the cases `etree_write_cell` branches on:
a formula or plain string, a pre-built `ArrayFormula` (reference and text), a
pre-built `DataTableFormula` (its own attribute list), a scalar rendered by
`safe_string`, a date carrying a timezone-awareness flag, or nothing. -/
inductive CellValue where
  | vstr (s : Chars)
  | varr (ref : Chars) (text : Chars)
  | vdt (attrs : List (Chars × Chars))
  | vnum (rendering : Chars)
  | vdate (tzAware : Bool) (rendering : Chars)
  | vnone
deriving DecidableEq

/-- Cell model: the inputs `_set_attributes` and `etree_write_cell` read. -/
structure CellM where
  value : CellValue
  dataType : Char
  isSpill : Bool
  spillRange : Option Chars
  coordinate : Chars
  hyperlink : Option Nat
deriving DecidableEq

/-- Errors surfaced by the writer: the timezone `TypeError` of
`_set_attributes`, the `AttributeError` a non-string formula value would raise
in `_add_function_prefix`, and a marker for a run of the rewriting engine that
never terminates. -/
inductive WErr where
  | tzError
  | typeError
  | divergence
deriving DecidableEq

/-- Result of `_set_attributes`. -/
inductive SAOut where
  | ok (value : CellValue) (attrs : List (Chars × Chars)) (hyperlinks : List Nat)
  | err (e : WErr)
deriving DecidableEq

/-- Embedding of `_set_attributes` (lines 14-48): coordinate and datatype
attributes, the spill `cm` marker, the timezone check on dates, and the
hyperlink append on the owning sheet's collection.  Datetime/number conversion
is an external collaborator and is modeled as the identity on the value's
rendering. -/
def setAttributes (cell : CellM) (hyperlinks : List Nat) : SAOut :=
  if (match cell.value with
      | .vdate true _ => cell.dataType == 'd'
      | _ => false) then .err .tzError
  else
    let attrs := [(chars "r", cell.coordinate)]
    let attrs :=
      if cell.dataType = 's' then attrs ++ [(chars "t", chars "inlineStr")]
      else if cell.dataType ≠ 'f' then attrs ++ [(chars "t", [cell.dataType])]
      else attrs
    let attrs :=
      if cell.dataType = 'f' && cell.isSpill then attrs ++ [(chars "cm", chars "1")]
      else attrs
    let hyperlinks' :=
      match cell.hyperlink with
      | some h => hyperlinks ++ [h]
      | none => hyperlinks
    .ok cell.value attrs hyperlinks'

/-- The truthiness/emptiness test `value is None or value == ""`. -/
def isEmptyValue (v : CellValue) : Bool :=
  match v with
  | .vnone => true
  | .vstr s => s = []
  | _ => false

/-- Spill reference: `getattr(cell, '_spill_range', None) or cell.coordinate`
(an empty range string is falsy and also falls back to the coordinate). -/
def spillRef (cell : CellM) : Chars :=
  match cell.spillRange with
  | some r => if r = [] then cell.coordinate else r
  | none => cell.coordinate

/-- Embedding of `prepare_spill_formula` (formula_utils.py lines 878-918):
run the prefix engine, guarantee a leading `=`, and compute the formula
attributes for the spill, LAMBDA/LET, and plain cases. -/
def prepareSpillFormula (v : CellValue) (cell : CellM) :
    Option (Chars × List (Chars × Chars)) :=
  match v with
  | .vstr s =>
    match addFunctionPrefix s with
    | none => none
    | some t =>
      let t := if t.head? = some '=' then t else '=' :: t
      if cell.isSpill then
        some (t, [(chars "t", chars "array"), (chars "ref", spillRef cell)])
      else if containsSub t (chars "LAMBDA") || containsSub t (chars "LET") then
        some (t, [(chars "t", chars "array"), (chars "ref", cell.coordinate)])
      else some (t, [])
  | _ => some (chars "=", [])

/-- The `f` and `v` child elements of a serialized formula cell: the formula
attribute list, the formula text (if set), and the value-slot text (if set). -/
structure FormulaElem where
  attrib : List (Chars × Chars)
  fText : Option Chars
  vText : Option Chars
deriving DecidableEq

/-- Formula branch of `etree_write_cell` (lines 60-103), producing the `f`
element's attributes and text and the `v` element's text. -/
def etreeFormulaBranch (cell : CellM) (value : CellValue) : Except WErr FormulaElem := do
  let original := value
  let (attrib, fval) ←
    if cell.isSpill then
      match prepareSpillFormula value cell with
      | none => throw .divergence
      | some (t, a) => pure (a, some t)
    else
      match value with
      | .varr ref text =>
        pure ([(chars "t", chars "array"), (chars "ref", ref)], some text)
      | .vdt attrs => pure (attrs, (none : Option Chars))
      | .vstr s =>
        if containsSub s (chars "LAMBDA") || containsSub s (chars "LET") then
          match addFunctionPrefix s with
          | none => throw .divergence
          | some t =>
            let t := if t.head? = some '=' then t.drop 1 else t
            pure ([(chars "t", chars "array"), (chars "ref", cell.coordinate)], some t)
        else pure ([], some s)
      | _ => throw .typeError
  if fval.isSome && attrib.lookup (chars "t") ≠ some (chars "dataTable") then
    let isLambdaOrLet :=
      attrib.lookup (chars "t") = some (chars "array") &&
      (match original with
       | .vstr s => s ≠ [] &&
           (containsSub s (chars "LAMBDA") || containsSub s (chars "LET"))
       | _ => false)
    let fText ←
      if !cell.isSpill && !isLambdaOrLet then
        match fval with
        | some s =>
          match addFunctionPrefix s with
          | none => throw .divergence
          | some t => pure (some (if t.head? = some '=' then t.drop 1 else t))
        | none => throw .typeError
      else pure fval
    let vText := if cell.isSpill then some (chars "0") else none
    return { attrib := attrib, fText := fText, vText := vText }
  else
    return { attrib := attrib, fText := none, vText := none }

/-- Serialized cell element: cell attributes, the optional formula child, the
value-slot text for non-formula cells, and the inline-string child. -/
structure CellXml where
  attrs : List (Chars × Chars)
  formula : Option FormulaElem
  vText : Option Chars
  inlineStr : Option Chars
deriving DecidableEq

/-- Embedding of `etree_write_cell` (lines 51-121): `_set_attributes` (the only
place the hyperlink collection is touched), then the formula / inline-string /
scalar branches. -/
def etreeWriteCell (cell : CellM) (hyperlinks : List Nat) :
    Except WErr (CellXml × List Nat) := do
  match setAttributes cell hyperlinks with
  | .err e => throw e
  | .ok value attrs hyperlinks' =>
    if isEmptyValue value then
      return ({ attrs := attrs, formula := none, vText := none, inlineStr := none },
              hyperlinks')
    else if cell.dataType = 'f' then
      let fe ← etreeFormulaBranch cell value
      return ({ attrs := attrs, formula := some fe, vText := fe.vText, inlineStr := none },
              hyperlinks')
    else if cell.dataType = 's' then
      let txt := match value with | .vstr s => s | _ => []
      return ({ attrs := attrs, formula := none, vText := none, inlineStr := some txt },
              hyperlinks')
    else
      let txt :=
        match value with
        | .vnum r => some r
        | .vdate _ r => some r
        | .vstr s => some s
        | _ => none
      return ({ attrs := attrs, formula := none, vText := txt, inlineStr := none },
              hyperlinks')

/-! ## Concrete instances used by the theorems -/

/-- Interleave binding pairs into the flat part list of a LET construct. -/
def flattenPairs : List (Chars × Chars) → List Chars
  | [] => []
  | (a, b) :: rest => a :: b :: flattenPairs rest

/-- The spilling cell of the end-to-end spill scenario: formula
`=UNIQUE(B2:B10)`, spill flag set, spill range `B2:B5`. -/
def spillCell : CellM :=
  { value := .vstr (chars "=UNIQUE(B2:B10)"), dataType := 'f', isSpill := true,
    spillRange := some (chars "B2:B5"), coordinate := chars "B2", hyperlink := none }

/-- A plain formula cell carrying a hyperlink. -/
def linkedFormulaCell : CellM :=
  { value := .vstr (chars "=SUM(A1)"), dataType := 'f', isSpill := false,
    spillRange := none, coordinate := chars "A1", hyperlink := some 7 }

/-- Bindings of the scoped-binding example `LET(x,5,y,x+10,x+y)`. -/
def letBindings : List (Chars × Chars) :=
  [(chars "x", chars "5"), (chars "y", chars "x+10")]

/-- Rewritten part list of the scoped-binding example. -/
def letOutParts : List Chars :=
  [chars "_xlpm.x", chars "5", chars "_xlpm.y", chars "_xlpm.x+10",
   chars "_xlpm.x+_xlpm.y"]

/-- The three adjacency notations, as a predicate used by the range-notation
theorems. -/
def troNotationForm (nt : Chars) : Prop :=
  nt = chars ".:." ∨ nt = chars ":." ∨ nt = chars ".:"

/-- Character admissible inside a range endpoint: `[A-Z]`, `[0-9]`, or `$`. -/
def refCharB (c : Char) : Bool := upperB c || digitB c || c = '$'

/-- Head of `rest` does not satisfy `p` (end of input also qualifies): the
greedy quantifier over `p` stops exactly at the boundary. -/
def headNotP (p : Char → Bool) : Chars → Bool
  | [] => true
  | c :: _ => !(p c)

/-- Head of `rest` is not an endpoint character: no alternative of the
cell-reference pattern can consume any of `rest`. -/
def refBoundary : Chars → Bool
  | [] => true
  | c :: _ => !(refCharB c)

/-- The eight endpoint shapes of the cell-reference alternation of
`_convert_tro_notations`, in source order: cell reference, cell reference with
absolute row, with absolute column, fully absolute, column run, absolute
column run, row run, absolute row run. -/
inductive EndpointShape where
  | colRow (u d : Chars)
  | colAbsRow (u d : Chars)
  | absColRow (u d : Chars)
  | absColAbsRow (u d : Chars)
  | colOnly (u : Chars)
  | absCol (u : Chars)
  | rowOnly (d : Chars)
  | absRow (d : Chars)
deriving DecidableEq

/-- Text of an endpoint shape. -/
def EndpointShape.render : EndpointShape → Chars
  | .colRow u d => u ++ d
  | .colAbsRow u d => u ++ '$' :: d
  | .absColRow u d => '$' :: (u ++ d)
  | .absColAbsRow u d => '$' :: (u ++ '$' :: d)
  | .colOnly u => u
  | .absCol u => '$' :: u
  | .rowOnly d => d
  | .absRow d => '$' :: d

/-- Well-formedness of an endpoint shape: letter runs are nonempty upper-case,
digit runs nonempty digits. -/
def EndpointShape.wfB : EndpointShape → Bool
  | .colRow u d => !u.isEmpty && u.all upperB && (!d.isEmpty && d.all digitB)
  | .colAbsRow u d => !u.isEmpty && u.all upperB && (!d.isEmpty && d.all digitB)
  | .absColRow u d => !u.isEmpty && u.all upperB && (!d.isEmpty && d.all digitB)
  | .absColAbsRow u d => !u.isEmpty && u.all upperB && (!d.isEmpty && d.all digitB)
  | .colOnly u => !u.isEmpty && u.all upperB
  | .absCol u => !u.isEmpty && u.all upperB
  | .rowOnly d => !d.isEmpty && d.all digitB
  | .absRow d => !d.isEmpty && d.all digitB

/-! ## Claim theorems -/

/-- C1: the claim states that the formula-prefixing engine terminates on every
input, in particular on `=LAMBDA(x)`.  The code does not: on `LAMBDA(x)` the
inner while-loop of `_process_lambda_function` finds the same unprefixed
LAMBDA span on every iteration because `_add_xlpm_to_lambda_params` returns a
single-argument construct unchanged, so no fuel bound makes the loop finish,
and the whole engine diverges on `=LAMBDA(x)`. -/
theorem c1_engine_diverges_on_single_arg_lambda :
    (∀ n : Nat, processLambdaLoopF n (chars "LAMBDA(x)") = none) ∧
    addXlpmToLambdaParams (chars "LAMBDA(x)") = some (chars "LAMBDA(x)") ∧
    addFunctionPrefix (chars "=LAMBDA(x)") = none := by
  refine ⟨?_, by decide, by decide⟩
  intro n
  induction n with
  | zero => decide
  | succ k ih =>
    have hstep : processLambdaLoopF (k + 1) (chars "LAMBDA(x)") =
        processLambdaLoopF k (chars "LAMBDA(x)") := rfl
    rw [hstep, ih]

/-- C2: the claim states that function-name tagging is idempotent
(`tag(tag(f)) == tag(f)`) and never adds a second prefix.  The code violates
this for the closure keyword LET: `re.sub(r'\bLET\b', '_xlfn.LET', ...)` has
no lookbehind, so a second run re-matches the `LET` inside `_xlfn.LET` and the
LET-variable pass re-prefixes the already-prefixed parameters, giving
`=_xlfn._xlfn.LET(_xlpm._xlpm.x,10,_xlpm._xlpm.x*2)`. -/
theorem c2_let_tagging_not_idempotent :
    addFunctionPrefix (chars "=LET(x,10,x*2)") =
      some (chars "=_xlfn.LET(_xlpm.x,10,_xlpm.x*2)") ∧
    addFunctionPrefix (chars "=_xlfn.LET(_xlpm.x,10,_xlpm.x*2)") =
      some (chars "=_xlfn._xlfn.LET(_xlpm._xlpm.x,10,_xlpm._xlpm.x*2)") ∧
    chars "=_xlfn._xlfn.LET(_xlpm._xlpm.x,10,_xlpm._xlpm.x*2)" ≠
      chars "=_xlfn.LET(_xlpm.x,10,_xlpm.x*2)" := by
  refine ⟨by decide, by decide, by decide⟩

/-- C3: the claim states that `unshield(shield(f)) = f`, in particular with
two or more literals.  The code violates this for every input with two or more
literals of the same pass: the reversed replacement loop numbers placeholders
right-to-left while `literals.insert(0, ...)` builds the list left-to-right,
so restoration swaps the literals: `{1}{2}` round-trips to `{2}{1}` and
`"1"&"2"` to `"2"&"1"`; a single literal does round-trip. -/
theorem c3_shield_roundtrip_swaps_literals :
    shieldRoundTrip (chars "\x7b1\x7d\x7b2\x7d") = chars "\x7b2\x7d\x7b1\x7d" ∧
    shieldRoundTrip (chars "\x221\x22&\x222\x22") = chars "\x222\x22&\x221\x22" ∧
    chars "\x7b2\x7d\x7b1\x7d" ≠ chars "\x7b1\x7d\x7b2\x7d" ∧
    shieldRoundTrip (chars "\x7b1\x7d") = chars "\x7b1\x7d" := by
  refine ⟨by decide, by decide, by decide, by decide⟩

/-- C4: the claim states that serializing the spilling cell with input
`=UNIQUE(B2:B10)` and spill range `B2:B5` emits formula text
`_xlfn.UNIQUE(B2:B10)` with the leading `=` stripped, attributes t="array",
ref="B2:B5".  The code produces the claimed attributes but emits the formula
text **with** the leading `=`: on the spill path `etree_write_cell` assigns
`formula.text = value` without stripping, contradicting the claim, the
docstring of `prepare_spill_formula`, and the repository's own writer tests. -/
theorem c4_spill_formula_text_keeps_leading_equals :
    etreeWriteCell spillCell [] =
      .ok ({ attrs := [(chars "r", chars "B2"), (chars "cm", chars "1")],
             formula := some
               { attrib := [(chars "t", chars "array"), (chars "ref", chars "B2:B5")],
                 fText := some (chars "=_xlfn.UNIQUE(B2:B10)"),
                 vText := some (chars "0") },
             vText := some (chars "0"),
             inlineStr := none }, []) := by
  rfl

/-- C6 counterexample: the claim states that a malformed-arity LET construct is
returned exactly as it appeared in the original input, with no part of it,
including the LET keyword, carrying any added prefix.  On `=LET(x,5)` (an even
top-level argument count) the engine returns `=_xlfn.LET(x,5)`: the keyword
has been given the `_xlfn.` compatibility prefix, so the output differs from
the input. -/
theorem c6_counterexample_keyword_still_prefixed :
    addFunctionPrefix (chars "=LET(x,5)") = some (chars "=_xlfn.LET(x,5)") ∧
    chars "=_xlfn.LET(x,5)" ≠ chars "=LET(x,5)" := by
  refine ⟨by decide, by decide⟩

/-- C6 amended: for a LET construct whose top-level argument list has fewer
than 3 elements or an even count, the engine leaves the argument list
unrewritten (no `_xlpm.` prefix is added to any part) and raises no exception,
but the LET keyword itself still receives the `_xlfn.` compatibility prefix
(added by the unconditional keyword substitution before the arity check):
`_add_xlpm_to_let_vars` returns its input unchanged whenever the arity check
fails, and `=LET(x,5)` becomes `=_xlfn.LET(x,5)`. -/
theorem c6_malformed_let_arity_left_unrewritten :
    addFunctionPrefix (chars "=LET(x,5)") = some (chars "=_xlfn.LET(x,5)") ∧
    ∀ (e pre content : Chars),
      letParse e = some (pre, content) →
      ((splitParts content).length < 3 ∨ (splitParts content).length % 2 = 0) →
      addXlpmToLetVars e = some e := by
  refine ⟨by decide, ?_⟩
  intro e pre content hp harity
  unfold addXlpmToLetVars
  rw [hp]
  have hcond : ((splitParts content).length < 3 || (splitParts content).length % 2 = 0) = true := by
    rcases harity with h | h
    · simp [h]
    · simp [h]
  simp [hcond]

/-- C8 counterexample: the claim states that keyword and registry-name
matching is case-insensitive, with `=sort(A1:A10)` and `=lambda(x,x*2)(5)`
rewritten the same way as their upper-case forms.  Every pattern in the code
is case-sensitive: both lower-case inputs pass through entirely unchanged
(no prefix of any kind is added), while the upper-case forms are rewritten. -/
theorem c8_counterexample_lowercase_unchanged :
    addFunctionPrefix (chars "=sort(A1:A10)") = some (chars "=sort(A1:A10)") ∧
    addFunctionPrefix (chars "=lambda(x,x*2)(5)") = some (chars "=lambda(x,x*2)(5)") ∧
    addFunctionPrefix (chars "=SORT(A1:A10)") = some (chars "=_xlfn._xlws.SORT(A1:A10)") ∧
    chars "=sort(A1:A10)" ≠ chars "=_xlfn._xlws.SORT(A1:A10)" := by
  refine ⟨by decide, by decide, by decide, by decide⟩

/-- C8 amended: matching of the closure keywords and of the registry names is
case-sensitive: only the exact upper-case forms stored in the registry (and
the exact keywords `LAMBDA`, `LET`) are recognized and rewritten; lower-case
variants such as `=sort(A1:A10)` and `=lambda(x,x*2)(5)` are left completely
unchanged, while the upper-case forms `=SORT(A1:A10)` and `=LAMBDA(x,x*2)(5)`
are rewritten. -/
theorem c8_matching_is_case_sensitive :
    addFunctionPrefix (chars "=sort(A1:A10)") = some (chars "=sort(A1:A10)") ∧
    addFunctionPrefix (chars "=lambda(x,x*2)(5)") = some (chars "=lambda(x,x*2)(5)") ∧
    addFunctionPrefix (chars "=SORT(A1:A10)") = some (chars "=_xlfn._xlws.SORT(A1:A10)") ∧
    addFunctionPrefix (chars "=LAMBDA(x,x*2)(5)") =
      some (chars "=_xlfn.LAMBDA(_xlpm.x,_xlpm.x*2)(5)") := by
  refine ⟨by decide, by decide, by decide, by decide⟩


/-! ## Helper lemmas for the range-notation universal theorem -/

/-- A digit is not an upper-case letter. -/
theorem digitB_not_upperB {c : Char} (h : digitB c = true) : upperB c = false := by
  unfold digitB at h
  unfold upperB
  simp only [Bool.and_eq_true, decide_eq_true_eq] at h
  simp only [Bool.and_eq_false_iff, decide_eq_false_iff_not]
  exact Or.inl (fun h2 => absurd (le_trans h2 h.2) (by decide))

/-- An upper-case letter is not `$`. -/
theorem upperB_ne_dollar {c : Char} (h : upperB c = true) : c ≠ '$' := by
  intro he; subst he; exact absurd h (by decide)

/-- A digit is not `$`. -/
theorem digitB_ne_dollar {c : Char} (h : digitB c = true) : c ≠ '$' := by
  intro he; subst he; exact absurd h (by decide)

/-- `takeWhile` over an append whose left part satisfies `p` throughout and
whose right part starts with a failing character. -/
theorem takeWhile_all_append (p : Char → Bool) (u rest : Chars)
    (hu : u.all p = true) (hb : headNotP p rest = true) :
    (u ++ rest).takeWhile p = u := by
  induction u with
  | nil =>
    simp only [List.nil_append]
    cases rest with
    | nil => rfl
    | cons c t =>
      simp only [headNotP, Bool.not_eq_true'] at hb
      simp [List.takeWhile, hb]
  | cons a u ih =>
    simp only [List.all_cons, Bool.and_eq_true] at hu
    simp [List.takeWhile, hu.1, ih hu.2]

/-- Evaluation of `takeUpper` on a well-formed letter run followed by a
boundary. -/
theorem takeUpper_append (u rest : Chars) (h1 : u ≠ [])
    (h2 : u.all upperB = true) (hb : headNotP upperB rest = true) :
    takeUpper (u ++ rest) = some (u, rest) := by
  unfold takeUpper
  rw [takeWhile_all_append upperB u rest h2 hb]
  rw [if_neg h1, List.drop_left]

/-- `takeUpper` fails when the head is not a letter. -/
theorem takeUpper_none (s : Chars) (hb : headNotP upperB s = true) :
    takeUpper s = none := by
  unfold takeUpper
  cases s with
  | nil => rfl
  | cons c t =>
    simp only [headNotP, Bool.not_eq_true'] at hb
    simp [List.takeWhile, hb]

/-- Evaluation of `takeDigits` on a well-formed digit run followed by a
boundary. -/
theorem takeDigits_append (d rest : Chars) (h1 : d ≠ [])
    (h2 : d.all digitB = true) (hb : headNotP digitB rest = true) :
    takeDigits (d ++ rest) = some (d, rest) := by
  unfold takeDigits
  rw [takeWhile_all_append digitB d rest h2 hb]
  rw [if_neg h1, List.drop_left]

/-- `takeDigits` fails when the head is not a digit. -/
theorem takeDigits_none (s : Chars) (hb : headNotP digitB s = true) :
    takeDigits s = none := by
  unfold takeDigits
  cases s with
  | nil => rfl
  | cons c t =>
    simp only [headNotP, Bool.not_eq_true'] at hb
    simp [List.takeWhile, hb]

/-- `takeDollar` fails when the head is not `$`. -/
theorem takeDollar_none (s : Chars) (hb : match s with | [] => True | c :: _ => c ≠ '$') :
    takeDollar s = none := by
  cases s with
  | nil => rfl
  | cons c t =>
    unfold takeDollar
    split
    · rename_i rest heq
      injection heq with h1 _
      exact absurd h1 hb
    · rfl

/-- `seqP` fails when its first parser fails. -/
theorem seqP_none_left (p q : Chars → Option (Chars × Chars)) (s : Chars)
    (h : p s = none) : seqP p q s = none := by
  unfold seqP; rw [h]

/-- `seqP` fails when its second parser fails on the remainder. -/
theorem seqP_none_right (p q : Chars → Option (Chars × Chars)) (s a r : Chars)
    (h : p s = some (a, r)) (h2 : q r = none) : seqP p q s = none := by
  simp only [seqP, h, h2]

/-- Evaluation of `seqP` when both parsers succeed. -/
theorem seqP_some (p q : Chars → Option (Chars × Chars)) (s a r b r' : Chars)
    (h : p s = some (a, r)) (h2 : q r = some (b, r')) :
    seqP p q s = some (a ++ b, r') := by
  simp only [seqP, h, h2]

/-- `firstAlt` skips an alternative that fails to parse. -/
theorem firstAlt_cons_none (p : Chars → Option (Chars × Chars))
    (ps : List (Chars → Option (Chars × Chars)))
    (k : Chars → Chars → Option (Chars × Chars)) (s : Chars)
    (h : p s = none) : firstAlt (p :: ps) k s = firstAlt ps k s := by
  simp only [firstAlt, h]

/-- `firstAlt` commits to an alternative whose parse and continuation both
succeed. -/
theorem firstAlt_cons_some (p : Chars → Option (Chars × Chars))
    (ps : List (Chars → Option (Chars × Chars)))
    (k : Chars → Chars → Option (Chars × Chars)) (s a r : Chars)
    (res : Chars × Chars)
    (h : p s = some (a, r)) (hk : k a r = some res) :
    firstAlt (p :: ps) k s = some res := by
  simp only [firstAlt, h, hk]

/-- A reference boundary blocks the letter quantifier. -/
theorem refBoundary_upper (rest : Chars) (h : refBoundary rest = true) :
    headNotP upperB rest = true := by
  cases rest with
  | nil => rfl
  | cons c t =>
    simp only [refBoundary, refCharB, Bool.not_eq_true', Bool.or_eq_false_iff] at h
    simp [headNotP, h.1.1]

/-- A reference boundary blocks the digit quantifier. -/
theorem refBoundary_digit (rest : Chars) (h : refBoundary rest = true) :
    headNotP digitB rest = true := by
  cases rest with
  | nil => rfl
  | cons c t =>
    simp only [refBoundary, refCharB, Bool.not_eq_true', Bool.or_eq_false_iff] at h
    simp [headNotP, h.1.2]

/-- A reference boundary blocks the `$` parser. -/
theorem refBoundary_dollar (rest : Chars) (h : refBoundary rest = true) :
    takeDollar rest = none := by
  refine takeDollar_none rest ?_
  cases rest with
  | nil => trivial
  | cons c t =>
    simp only [refBoundary, refCharB, Bool.not_eq_true', Bool.or_eq_false_iff,
      decide_eq_false_iff_not] at h
    exact h.2

/-- Evaluation of the cell-reference alternation of `_convert_tro_notations`
on a well-formed endpoint followed by a boundary: the alternatives preceding
the endpoint's own shape all fail, the shape's alternative consumes exactly
the endpoint, and the continuation decides the result. -/
theorem cellRefFirstAlt (sh : EndpointShape) (rest : Chars)
    (k : Chars → Chars → Option (Chars × Chars)) (res : Chars × Chars)
    (hwf : sh.wfB = true) (hb : refBoundary rest = true)
    (hk : k sh.render rest = some res) :
    firstAlt cellRefAlternatives k (sh.render ++ rest) = some res := by
  have hbu := refBoundary_upper rest hb
  have hbd := refBoundary_digit rest hb
  have hbs := refBoundary_dollar rest hb
  cases sh with
  | colRow u d =>
    simp only [EndpointShape.wfB, Bool.and_eq_true] at hwf
    obtain ⟨⟨hu1, hu2⟩, hd1, hd2⟩ := hwf
    simp only [Bool.not_eq_true', List.isEmpty_eq_false] at hu1 hd1
    obtain ⟨dc, d', rfl⟩ := List.exists_cons_of_ne_nil hd1
    have hdc : digitB dc = true := by
      simp only [List.all_cons, Bool.and_eq_true] at hd2; exact hd2.1
    have hbu2 : headNotP upperB ((dc :: d') ++ rest) = true := by
      simp [headNotP, digitB_not_upperB hdc]
    simp only [EndpointShape.render] at hk ⊢
    unfold cellRefAlternatives
    rw [List.append_assoc]
    exact firstAlt_cons_some _ _ _ _ _ _ _
      (seqP_some _ _ _ _ _ _ _
        (takeUpper_append u ((dc :: d') ++ rest) hu1 hu2 hbu2)
        (takeDigits_append (dc :: d') rest hd1 hd2 hbd)) hk
  | colOnly u =>
    simp only [EndpointShape.wfB, Bool.and_eq_true] at hwf
    obtain ⟨hu1, hu2⟩ := hwf
    simp only [Bool.not_eq_true', List.isEmpty_eq_false] at hu1
    obtain ⟨uc, u', rfl⟩ := List.exists_cons_of_ne_nil hu1
    have huc : upperB uc = true := by
      simp only [List.all_cons, Bool.and_eq_true] at hu2; exact hu2.1
    have hTU : takeUpper ((uc :: u') ++ rest) = some (uc :: u', rest) :=
      takeUpper_append (uc :: u') rest hu1 hu2 hbu
    have hdollarNone : takeDollar ((uc :: u') ++ rest) = none :=
      takeDollar_none _ (upperB_ne_dollar huc)
    simp only [EndpointShape.render] at hk ⊢
    unfold cellRefAlternatives
    rw [firstAlt_cons_none _ _ _ _ (seqP_none_right _ _ _ _ _ hTU (takeDigits_none rest hbd))]
    rw [firstAlt_cons_none _ _ _ _ (seqP_none_right _ _ _ _ _ hTU (seqP_none_left _ _ _ hbs))]
    rw [firstAlt_cons_none _ _ _ _ (seqP_none_left _ _ _ hdollarNone)]
    rw [firstAlt_cons_none _ _ _ _ (seqP_none_left _ _ _ hdollarNone)]
    exact firstAlt_cons_some _ _ _ _ _ _ _ hTU hk
  | rowOnly d =>
    simp only [EndpointShape.wfB, Bool.and_eq_true] at hwf
    obtain ⟨hd1, hd2⟩ := hwf
    simp only [Bool.not_eq_true', List.isEmpty_eq_false] at hd1
    obtain ⟨dc, d', rfl⟩ := List.exists_cons_of_ne_nil hd1
    have hdc : digitB dc = true := by
      simp only [List.all_cons, Bool.and_eq_true] at hd2; exact hd2.1
    have hupNone : takeUpper ((dc :: d') ++ rest) = none :=
      takeUpper_none _ (by simp [headNotP, digitB_not_upperB hdc])
    have hdollarNone : takeDollar ((dc :: d') ++ rest) = none :=
      takeDollar_none _ (digitB_ne_dollar hdc)
    simp only [EndpointShape.render] at hk ⊢
    unfold cellRefAlternatives
    rw [firstAlt_cons_none _ _ _ _ (seqP_none_left _ _ _ hupNone)]
    rw [firstAlt_cons_none _ _ _ _ (seqP_none_left _ _ _ hupNone)]
    rw [firstAlt_cons_none _ _ _ _ (seqP_none_left _ _ _ hdollarNone)]
    rw [firstAlt_cons_none _ _ _ _ (seqP_none_left _ _ _ hdollarNone)]
    rw [firstAlt_cons_none _ _ _ _ hupNone]
    rw [firstAlt_cons_none _ _ _ _ (seqP_none_left _ _ _ hdollarNone)]
    exact firstAlt_cons_some _ _ _ _ _ _ _
      (takeDigits_append (dc :: d') rest hd1 hd2 hbd) hk
  | colAbsRow u d =>
    simp only [EndpointShape.wfB, Bool.and_eq_true] at hwf
    obtain ⟨⟨hu1, hu2⟩, hd1, hd2⟩ := hwf
    simp only [Bool.not_eq_true', List.isEmpty_eq_false] at hu1 hd1
    have hbu2 : headNotP upperB ('$' :: (d ++ rest)) = true := by
      simp [headNotP]; decide
    have hTU : takeUpper (u ++ '$' :: (d ++ rest)) = some (u, '$' :: (d ++ rest)) :=
      takeUpper_append u ('$' :: (d ++ rest)) hu1 hu2 hbu2
    have hdigNone : takeDigits ('$' :: (d ++ rest)) = none :=
      takeDigits_none _ (by simp [headNotP]; decide)
    have hassoc : (u ++ '$' :: d) ++ rest = u ++ '$' :: (d ++ rest) := by
      simp [List.append_assoc]
    simp only [EndpointShape.render] at hk ⊢
    unfold cellRefAlternatives
    rw [hassoc]
    rw [firstAlt_cons_none _ _ _ _ (seqP_none_right _ _ _ _ _ hTU hdigNone)]
    exact firstAlt_cons_some _ _ _ _ _ _ _
      (seqP_some _ _ _ _ _ _ _ hTU
        (seqP_some _ _ _ _ _ _ _ rfl (takeDigits_append d rest hd1 hd2 hbd))) hk
  | absColRow u d =>
    simp only [EndpointShape.wfB, Bool.and_eq_true] at hwf
    obtain ⟨⟨hu1, hu2⟩, hd1, hd2⟩ := hwf
    simp only [Bool.not_eq_true', List.isEmpty_eq_false] at hu1 hd1
    obtain ⟨dc, d', rfl⟩ := List.exists_cons_of_ne_nil hd1
    have hdc : digitB dc = true := by
      simp only [List.all_cons, Bool.and_eq_true] at hd2; exact hd2.1
    have hupNone : takeUpper ('$' :: (u ++ ((dc :: d') ++ rest))) = none :=
      takeUpper_none _ (by simp [headNotP]; decide)
    have hbu2 : headNotP upperB ((dc :: d') ++ rest) = true := by
      simp [headNotP, digitB_not_upperB hdc]
    have hassoc : ('$' :: (u ++ dc :: d')) ++ rest = '$' :: (u ++ ((dc :: d') ++ rest)) := by
      simp [List.append_assoc]
    simp only [EndpointShape.render] at hk ⊢
    unfold cellRefAlternatives
    rw [hassoc]
    rw [firstAlt_cons_none _ _ _ _ (seqP_none_left _ _ _ hupNone)]
    rw [firstAlt_cons_none _ _ _ _ (seqP_none_left _ _ _ hupNone)]
    refine firstAlt_cons_some _ _ _ _ _ _ _
      (seqP_some _ _ _ _ _ _ _ rfl
        (seqP_some _ _ _ _ _ _ _
          (takeUpper_append u ((dc :: d') ++ rest) hu1 hu2 hbu2)
          (takeDigits_append (dc :: d') rest hd1 hd2 hbd))) hk
  | absColAbsRow u d =>
    simp only [EndpointShape.wfB, Bool.and_eq_true] at hwf
    obtain ⟨⟨hu1, hu2⟩, hd1, hd2⟩ := hwf
    simp only [Bool.not_eq_true', List.isEmpty_eq_false] at hu1 hd1
    have hupNone : takeUpper ('$' :: (u ++ '$' :: (d ++ rest))) = none :=
      takeUpper_none _ (by simp [headNotP]; decide)
    have hbu2 : headNotP upperB ('$' :: (d ++ rest)) = true := by
      simp [headNotP]; decide
    have hTU : takeUpper (u ++ '$' :: (d ++ rest)) = some (u, '$' :: (d ++ rest)) :=
      takeUpper_append u ('$' :: (d ++ rest)) hu1 hu2 hbu2
    have hdigNone : takeDigits ('$' :: (d ++ rest)) = none :=
      takeDigits_none _ (by simp [headNotP]; decide)
    have hassoc : ('$' :: (u ++ '$' :: d)) ++ rest = '$' :: (u ++ '$' :: (d ++ rest)) := by
      simp [List.append_assoc]
    simp only [EndpointShape.render] at hk ⊢
    unfold cellRefAlternatives
    rw [hassoc]
    rw [firstAlt_cons_none _ _ _ _ (seqP_none_left _ _ _ hupNone)]
    rw [firstAlt_cons_none _ _ _ _ (seqP_none_left _ _ _ hupNone)]
    rw [firstAlt_cons_none _ _ _ _
      (seqP_none_right _ _ _ _ _ rfl (seqP_none_right _ _ _ _ _ hTU hdigNone))]
    refine firstAlt_cons_some _ _ _ _ _ _ _
      (seqP_some _ _ _ _ _ _ _ rfl
        (seqP_some _ _ _ _ _ _ _ hTU
          (seqP_some _ _ _ _ _ _ _ rfl (takeDigits_append d rest hd1 hd2 hbd)))) hk
  | absCol u =>
    simp only [EndpointShape.wfB, Bool.and_eq_true] at hwf
    obtain ⟨hu1, hu2⟩ := hwf
    simp only [Bool.not_eq_true', List.isEmpty_eq_false] at hu1
    have hupNone : takeUpper ('$' :: (u ++ rest)) = none :=
      takeUpper_none _ (by simp [headNotP]; decide)
    have hTU : takeUpper (u ++ rest) = some (u, rest) :=
      takeUpper_append u rest hu1 hu2 hbu
    have hassoc : ('$' :: u) ++ rest = '$' :: (u ++ rest) := by simp
    simp only [EndpointShape.render] at hk ⊢
    unfold cellRefAlternatives
    rw [hassoc]
    rw [firstAlt_cons_none _ _ _ _ (seqP_none_left _ _ _ hupNone)]
    rw [firstAlt_cons_none _ _ _ _ (seqP_none_left _ _ _ hupNone)]
    rw [firstAlt_cons_none _ _ _ _
      (seqP_none_right _ _ _ _ _ rfl (seqP_none_right _ _ _ _ _ hTU (takeDigits_none rest hbd)))]
    rw [firstAlt_cons_none _ _ _ _
      (seqP_none_right _ _ _ _ _ rfl (seqP_none_right _ _ _ _ _ hTU (seqP_none_left _ _ _ hbs)))]
    rw [firstAlt_cons_none _ _ _ _ hupNone]
    exact firstAlt_cons_some _ _ _ _ _ _ _ (seqP_some _ _ _ _ _ _ _ rfl hTU) hk
  | absRow d =>
    simp only [EndpointShape.wfB, Bool.and_eq_true] at hwf
    obtain ⟨hd1, hd2⟩ := hwf
    simp only [Bool.not_eq_true', List.isEmpty_eq_false] at hd1
    obtain ⟨dc, d', rfl⟩ := List.exists_cons_of_ne_nil hd1
    have hdc : digitB dc = true := by
      simp only [List.all_cons, Bool.and_eq_true] at hd2; exact hd2.1
    have hupNone0 : takeUpper ('$' :: ((dc :: d') ++ rest)) = none :=
      takeUpper_none _ (by simp [headNotP]; decide)
    have hupNone : takeUpper ((dc :: d') ++ rest) = none :=
      takeUpper_none _ (by simp [headNotP, digitB_not_upperB hdc])
    have hdigNone0 : takeDigits ('$' :: ((dc :: d') ++ rest)) = none :=
      takeDigits_none _ (by simp [headNotP]; decide)
    have hassoc : ('$' :: dc :: d') ++ rest = '$' :: ((dc :: d') ++ rest) := by simp
    simp only [EndpointShape.render] at hk ⊢
    unfold cellRefAlternatives
    rw [hassoc]
    rw [firstAlt_cons_none _ _ _ _ (seqP_none_left _ _ _ hupNone0)]
    rw [firstAlt_cons_none _ _ _ _ (seqP_none_left _ _ _ hupNone0)]
    rw [firstAlt_cons_none _ _ _ _
      (seqP_none_right _ _ _ _ _ rfl (seqP_none_left _ _ _ hupNone))]
    rw [firstAlt_cons_none _ _ _ _
      (seqP_none_right _ _ _ _ _ rfl (seqP_none_left _ _ _ hupNone))]
    rw [firstAlt_cons_none _ _ _ _ hupNone0]
    rw [firstAlt_cons_none _ _ _ _ (seqP_none_right _ _ _ _ _ rfl hupNone)]
    rw [firstAlt_cons_none _ _ _ _ hdigNone0]
    exact firstAlt_cons_some _ _ _ _ _ _ _
      (seqP_some _ _ _ _ _ _ _ rfl (takeDigits_append (dc :: d') rest hd1 hd2 hbd)) hk

/-- `takeUpper` only ever drops a prefix of its input. -/
theorem takeUpper_suffix (s a r : Chars) (h : takeUpper s = some (a, r)) : r <:+ s := by
  simp only [takeUpper] at h
  by_cases hu : s.takeWhile upperB = []
  · rw [if_pos hu] at h; cases h
  · rw [if_neg hu] at h
    cases h
    exact List.drop_suffix _ _

/-- `takeDigits` only ever drops a prefix of its input. -/
theorem takeDigits_suffix (s a r : Chars) (h : takeDigits s = some (a, r)) : r <:+ s := by
  simp only [takeDigits] at h
  by_cases hu : s.takeWhile digitB = []
  · rw [if_pos hu] at h; cases h
  · rw [if_neg hu] at h
    cases h
    exact List.drop_suffix _ _

/-- `takeDollar` only ever drops a prefix of its input. -/
theorem takeDollar_suffix (s a r : Chars) (h : takeDollar s = some (a, r)) : r <:+ s := by
  cases s with
  | nil => cases h
  | cons c t =>
    unfold takeDollar at h
    split at h
    · rename_i rest heq
      injection heq with h1 h2
      cases h
      rw [← h2]
      exact List.suffix_cons c t
    · cases h

/-- `seqP` of two suffix-respecting parsers is suffix-respecting. -/
theorem seqP_suffix (p q : Chars → Option (Chars × Chars))
    (hp : ∀ s a r, p s = some (a, r) → r <:+ s)
    (hq : ∀ s a r, q s = some (a, r) → r <:+ s)
    (s a r : Chars) (h : seqP p q s = some (a, r)) : r <:+ s := by
  unfold seqP at h
  cases h1 : p s with
  | none =>
    simp only [h1] at h
    cases h
  | some ar =>
    obtain ⟨a1, r1⟩ := ar
    simp only [h1] at h
    cases h2 : q r1 with
    | none =>
      simp only [h2] at h
      cases h
    | some br =>
      obtain ⟨b1, r2⟩ := br
      simp only [h2, Option.some.injEq, Prod.mk.injEq] at h
      obtain ⟨-, rfl⟩ := h
      exact (hq r1 b1 r2 h2).trans (hp s a1 r1 h1)

/-- Every alternative of the cell-reference pattern only drops a prefix. -/
theorem cellRefAlternatives_suffix :
    ∀ p ∈ cellRefAlternatives, ∀ s a r, p s = some (a, r) → r <:+ s := by
  intro p hp
  simp only [cellRefAlternatives, List.mem_cons, List.not_mem_nil, or_false] at hp
  rcases hp with rfl | rfl | rfl | rfl | rfl | rfl | rfl | rfl
  · exact seqP_suffix _ _ takeUpper_suffix takeDigits_suffix
  · exact seqP_suffix _ _ takeUpper_suffix
      (seqP_suffix _ _ takeDollar_suffix takeDigits_suffix)
  · exact seqP_suffix _ _ takeDollar_suffix
      (seqP_suffix _ _ takeUpper_suffix takeDigits_suffix)
  · exact seqP_suffix _ _ takeDollar_suffix
      (seqP_suffix _ _ takeUpper_suffix
        (seqP_suffix _ _ takeDollar_suffix takeDigits_suffix))
  · exact takeUpper_suffix
  · exact seqP_suffix _ _ takeDollar_suffix takeUpper_suffix
  · exact takeDigits_suffix
  · exact seqP_suffix _ _ takeDollar_suffix takeDigits_suffix

/-- The notation alternation cannot match text containing no dot. -/
theorem takeTroNotation_none (r : Chars) (h : ¬ '.' ∈ r) : takeTroNotation r = none := by
  unfold takeTroNotation
  rw [if_neg, if_neg, if_neg]
  · intro hp
    exact h ((List.isPrefixOf_iff_prefix.mp hp).subset (by decide))
  · intro hp
    exact h ((List.isPrefixOf_iff_prefix.mp hp).subset (by decide))
  · intro hp
    exact h ((List.isPrefixOf_iff_prefix.mp hp).subset (by decide))

/-- `firstAlt` moves on when the continuation rejects a successful parse. -/
theorem firstAlt_cons_reject (p : Chars → Option (Chars × Chars))
    (ps : List (Chars → Option (Chars × Chars)))
    (k : Chars → Chars → Option (Chars × Chars)) (s a r : Chars)
    (h : p s = some (a, r)) (hk : k a r = none) :
    firstAlt (p :: ps) k s = firstAlt ps k s := by
  simp only [firstAlt, h, hk]

/-- `firstAlt` fails when the continuation rejects every alternative's parse. -/
theorem firstAlt_none (alts : List (Chars → Option (Chars × Chars)))
    (k : Chars → Chars → Option (Chars × Chars)) (s : Chars)
    (h : ∀ p ∈ alts, ∀ a r, p s = some (a, r) → k a r = none) :
    firstAlt alts k s = none := by
  induction alts with
  | nil => rfl
  | cons p ps ih =>
    cases hp : p s with
    | none =>
      rw [firstAlt_cons_none p ps k s hp]
      exact ih (fun q hq => h q (List.mem_cons_of_mem _ hq))
    | some ar =>
      obtain ⟨a, r⟩ := ar
      rw [firstAlt_cons_reject p ps k s a r hp (h p (List.mem_cons_self ..) a r hp)]
      exact ih (fun q hq => h q (List.mem_cons_of_mem _ hq))

/-- The plain range pattern cannot match text containing no dot. -/
theorem troPlainMatch_none (s : Chars) (h : ¬ '.' ∈ s) : troPlainMatch s = none := by
  unfold troPlainMatch
  apply firstAlt_none
  intro p hp a r hpr
  have hdot : ¬ '.' ∈ r :=
    fun hm => h ((cellRefAlternatives_suffix p hp s a r hpr).subset hm)
  simp only [takeTroNotation_none r hdot]

/-- `takeSheet` fails when the text contains no `!`. -/
theorem takeSheet_none (s : Chars) (h : ¬ '!' ∈ s) : takeSheet s = none := by
  simp only [takeSheet]
  by_cases hu : s.takeWhile isWordChar = []
  · rw [if_pos hu]
  · rw [if_neg hu]
    cases hd : s.drop (s.takeWhile isWordChar).length with
    | nil => rfl
    | cons c t =>
      have hc : c ∈ s := (List.drop_suffix _ s).subset (hd ▸ List.mem_cons_self c t)
      have hne : c ≠ '!' := fun he => h (he ▸ hc)
      split
      · rename_i rest heq
        injection heq with h1 _
        exact absurd h1 hne
      · rfl

/-- The sheet-qualified range pattern cannot match text containing no `!`. -/
theorem troSheetMatch_none (s : Chars) (h : ¬ '!' ∈ s) : troSheetMatch s = none := by
  unfold troSheetMatch
  rw [takeSheet_none s h]

/-- A scan whose matcher rejects every suffix is the identity. -/
theorem reSubScan_id (m : Chars → Option (Chars × Chars)) (fuel : Nat) (s : Chars)
    (h : ∀ t : Chars, t <:+ s → m t = none) : reSubScan m fuel s = s := by
  induction fuel generalizing s with
  | zero => cases s <;> rfl
  | succ n ih =>
    cases s with
    | nil => rfl
    | cons c rest =>
      simp only [reSubScan, h (c :: rest) (List.suffix_refl _)]
      rw [ih rest (fun t ht => h t (ht.trans (List.suffix_cons c rest)))]

/-- A scan whose matcher consumes the entire nonempty input at position 0
emits exactly the replacement. -/
theorem reSubScan_single (m : Chars → Option (Chars × Chars)) (s rep : Chars)
    (fuel : Nat) (hf : fuel = s.length) (hm : m s = some (rep, []))
    (hne : s ≠ []) : reSubScan m fuel s = rep := by
  cases s with
  | nil => exact absurd rfl hne
  | cons c rest =>
    subst hf
    simp only [List.length_cons, reSubScan, hm, List.length_nil]
    rw [if_pos (Nat.succ_pos _)]
    cases rest.length <;> simp [reSubScan]

/-- A well-formed endpoint is nonempty and starts with an endpoint character. -/
theorem render_head_ref (sh : EndpointShape) (hwf : sh.wfB = true) :
    ∃ c t, sh.render = c :: t ∧ refCharB c = true := by
  cases sh with
  | colRow u d | colAbsRow u d | absColRow u d | absColAbsRow u d =>
    first
    | (simp only [EndpointShape.wfB, Bool.and_eq_true] at hwf
       obtain ⟨⟨hu1, hu2⟩, _⟩ := hwf
       simp only [Bool.not_eq_true', List.isEmpty_eq_false] at hu1
       obtain ⟨c, t, rfl⟩ := List.exists_cons_of_ne_nil hu1
       simp only [List.all_cons, Bool.and_eq_true] at hu2
       exact ⟨c, _, rfl, by simp [refCharB, hu2.1]⟩)
    | exact ⟨'$', _, rfl, by decide⟩
  | colOnly u | absCol u =>
    first
    | (simp only [EndpointShape.wfB, Bool.and_eq_true] at hwf
       obtain ⟨hu1, hu2⟩ := hwf
       simp only [Bool.not_eq_true', List.isEmpty_eq_false] at hu1
       obtain ⟨c, t, rfl⟩ := List.exists_cons_of_ne_nil hu1
       simp only [List.all_cons, Bool.and_eq_true] at hu2
       exact ⟨c, _, rfl, by simp [refCharB, hu2.1]⟩)
    | exact ⟨'$', _, rfl, by decide⟩
  | rowOnly d | absRow d =>
    first
    | (simp only [EndpointShape.wfB, Bool.and_eq_true] at hwf
       obtain ⟨hd1, hd2⟩ := hwf
       simp only [Bool.not_eq_true', List.isEmpty_eq_false] at hd1
       obtain ⟨c, t, rfl⟩ := List.exists_cons_of_ne_nil hd1
       simp only [List.all_cons, Bool.and_eq_true] at hd2
       exact ⟨c, _, rfl, by simp [refCharB, hd2.1]⟩)
    | exact ⟨'$', _, rfl, by decide⟩

/-- An upper-case letter is an endpoint character. -/
theorem refCharB_of_upper {c : Char} (h : upperB c = true) : refCharB c = true := by
  simp [refCharB, h]

/-- A digit is an endpoint character. -/
theorem refCharB_of_digit {c : Char} (h : digitB c = true) : refCharB c = true := by
  simp [refCharB, h]

/-- Every character of a well-formed endpoint is an endpoint character. -/
theorem render_chars_ref (sh : EndpointShape) (hwf : sh.wfB = true) :
    ∀ c ∈ sh.render, refCharB c = true := by
  intro c hc
  cases sh with
  | colRow u d =>
    simp only [EndpointShape.wfB, Bool.and_eq_true] at hwf
    obtain ⟨⟨_, hu2⟩, _, hd2⟩ := hwf
    simp only [EndpointShape.render, List.mem_append] at hc
    rcases hc with hc | hc
    · exact refCharB_of_upper (List.all_eq_true.mp hu2 c hc)
    · exact refCharB_of_digit (List.all_eq_true.mp hd2 c hc)
  | colAbsRow u d =>
    simp only [EndpointShape.wfB, Bool.and_eq_true] at hwf
    obtain ⟨⟨_, hu2⟩, _, hd2⟩ := hwf
    simp only [EndpointShape.render, List.mem_append, List.mem_cons] at hc
    rcases hc with hc | hc | hc
    · exact refCharB_of_upper (List.all_eq_true.mp hu2 c hc)
    · subst hc; decide
    · exact refCharB_of_digit (List.all_eq_true.mp hd2 c hc)
  | absColRow u d =>
    simp only [EndpointShape.wfB, Bool.and_eq_true] at hwf
    obtain ⟨⟨_, hu2⟩, _, hd2⟩ := hwf
    simp only [EndpointShape.render, List.mem_append, List.mem_cons] at hc
    rcases hc with hc | hc | hc
    · subst hc; decide
    · exact refCharB_of_upper (List.all_eq_true.mp hu2 c hc)
    · exact refCharB_of_digit (List.all_eq_true.mp hd2 c hc)
  | absColAbsRow u d =>
    simp only [EndpointShape.wfB, Bool.and_eq_true] at hwf
    obtain ⟨⟨_, hu2⟩, _, hd2⟩ := hwf
    simp only [EndpointShape.render, List.mem_append, List.mem_cons] at hc
    rcases hc with hc | hc | hc | hc
    · subst hc; decide
    · exact refCharB_of_upper (List.all_eq_true.mp hu2 c hc)
    · subst hc; decide
    · exact refCharB_of_digit (List.all_eq_true.mp hd2 c hc)
  | colOnly u =>
    simp only [EndpointShape.wfB, Bool.and_eq_true] at hwf
    simp only [EndpointShape.render] at hc
    exact refCharB_of_upper (List.all_eq_true.mp hwf.2 c hc)
  | absCol u =>
    simp only [EndpointShape.wfB, Bool.and_eq_true] at hwf
    simp only [EndpointShape.render, List.mem_cons] at hc
    rcases hc with hc | hc
    · subst hc; decide
    · exact refCharB_of_upper (List.all_eq_true.mp hwf.2 c hc)
  | rowOnly d =>
    simp only [EndpointShape.wfB, Bool.and_eq_true] at hwf
    simp only [EndpointShape.render] at hc
    exact refCharB_of_digit (List.all_eq_true.mp hwf.2 c hc)
  | absRow d =>
    simp only [EndpointShape.wfB, Bool.and_eq_true] at hwf
    simp only [EndpointShape.render, List.mem_cons] at hc
    rcases hc with hc | hc
    · subst hc; decide
    · exact refCharB_of_digit (List.all_eq_true.mp hwf.2 c hc)

/-- The notation alternation consumes exactly the notation when the following
text starts with an endpoint character. -/
theorem takeTroNotation_append (nt s2 : Chars) (hnt : troNotationForm nt)
    (h2 : ∃ c t, s2 = c :: t ∧ refCharB c = true) :
    takeTroNotation (nt ++ s2) = some (nt, s2) := by
  obtain ⟨c, t, rfl, hc⟩ := h2
  have hcdot : c ≠ '.' := fun he => by subst he; exact absurd hc (by decide)
  rcases hnt with rfl | rfl | rfl
  · rfl
  · rfl
  · simp only [takeTroNotation]
    rw [if_neg, if_neg, if_pos]
    · rfl
    · show (chars ".:").isPrefixOf (chars ".:" ++ c :: t) = true
      rfl
    · show ¬ (chars ":.").isPrefixOf (chars ".:" ++ c :: t) = true
      simp [List.isPrefixOf, chars]
    · show ¬ (chars ".:.").isPrefixOf (chars ".:" ++ c :: t) = true
      simp [List.isPrefixOf, chars]
      exact Ne.symm hcdot

/-- The cell-reference alternation with the accepting continuation consumes a
whole well-formed endpoint. -/
theorem cellRefEnd (sh : EndpointShape) (hwf : sh.wfB = true) :
    firstAlt cellRefAlternatives (fun e r => some (e, r)) sh.render =
      some (sh.render, []) := by
  have h := cellRefFirstAlt sh [] (fun e r => some (e, r)) (sh.render, []) hwf rfl rfl
  simpa using h

/-- The plain range pattern matches a whole well-formed
`endpoint notation endpoint` construct and produces the rewritten call. -/
theorem troPlainMatch_full (sh1 sh2 : EndpointShape) (nt : Chars)
    (h1 : sh1.wfB = true) (h2 : sh2.wfB = true) (hnt : troNotationForm nt) :
    troPlainMatch (sh1.render ++ (nt ++ sh2.render)) =
      some (troName nt ++ chars "(" ++ sh1.render ++ chars ":" ++ sh2.render ++
        chars ")", []) := by
  unfold troPlainMatch
  refine cellRefFirstAlt sh1 (nt ++ sh2.render) _ _ h1 ?_ ?_
  · rcases hnt with rfl | rfl | rfl <;> rfl
  · simp only [takeTroNotation_append nt sh2.render hnt (render_head_ref sh2 h2),
      cellRefEnd sh2 h2]

/-- `takeSheet` consumes a whole word-character sheet name and its `!`. -/
theorem takeSheet_append (sheet rest' : Chars) (h1 : sheet ≠ [])
    (h2 : sheet.all isWordChar = true) :
    takeSheet (sheet ++ '!' :: rest') = some (sheet ++ ['!'], rest') := by
  simp only [takeSheet]
  rw [takeWhile_all_append isWordChar sheet ('!' :: rest') h2 (by rfl)]
  rw [if_neg h1, List.drop_left]
  rfl

/-- The sheet-qualified range pattern matches a whole well-formed
`sheet!endpoint notation endpoint` construct and duplicates the qualifier. -/
theorem troSheetMatch_full (sheet : Chars) (sh1 sh2 : EndpointShape) (nt : Chars)
    (hs1 : sheet ≠ []) (hs2 : sheet.all isWordChar = true)
    (h1 : sh1.wfB = true) (h2 : sh2.wfB = true) (hnt : troNotationForm nt) :
    troSheetMatch (sheet ++ '!' :: (sh1.render ++ (nt ++ sh2.render))) =
      some (troName nt ++ chars "(" ++ (sheet ++ ['!']) ++ sh1.render ++ chars ":" ++
        (sheet ++ ['!']) ++ sh2.render ++ chars ")", []) := by
  unfold troSheetMatch
  rw [takeSheet_append sheet _ hs1 hs2]
  refine cellRefFirstAlt sh1 (nt ++ sh2.render) _ _ h1 ?_ ?_
  · rcases hnt with rfl | rfl | rfl <;> rfl
  · simp only [takeTroNotation_append nt sh2.render hnt (render_head_ref sh2 h2),
      cellRefEnd sh2 h2]

/-- A plain notation construct contains no `!`. -/
theorem tro_no_bang (sh1 sh2 : EndpointShape) (nt : Chars)
    (h1 : sh1.wfB = true) (h2 : sh2.wfB = true) (hnt : troNotationForm nt) :
    ¬ '!' ∈ (sh1.render ++ (nt ++ sh2.render)) := by
  intro hm
  simp only [List.mem_append] at hm
  casesm* _ ∨ _
  · exact absurd (render_chars_ref sh1 h1 _ (by assumption)) (by decide)
  · rename_i hx
    rcases hnt with rfl | rfl | rfl <;> exact absurd hx (by decide)
  · exact absurd (render_chars_ref sh2 h2 _ (by assumption)) (by decide)

/-- The output of a sheet-qualified rewrite contains no dot. -/
theorem tro_out_no_dot (sheet : Chars) (sh1 sh2 : EndpointShape) (nt : Chars)
    (hs2 : sheet.all isWordChar = true) (h1 : sh1.wfB = true) (h2 : sh2.wfB = true)
    (hnt : troNotationForm nt) :
    ¬ '.' ∈ (troName nt ++ chars "(" ++ (sheet ++ ['!']) ++ sh1.render ++ chars ":" ++
      (sheet ++ ['!']) ++ sh2.render ++ chars ")") := by
  intro hm
  have htro : ¬ '.' ∈ troName nt := by
    rcases hnt with rfl | rfl | rfl <;> decide
  have hsheet : ¬ '.' ∈ sheet := fun hs =>
    absurd (List.all_eq_true.mp hs2 _ hs) (by decide)
  have hr1 : ¬ '.' ∈ sh1.render := fun hs =>
    absurd (render_chars_ref sh1 h1 _ hs) (by decide)
  have hr2 : ¬ '.' ∈ sh2.render := fun hs =>
    absurd (render_chars_ref sh2 h2 _ hs) (by decide)
  simp only [List.mem_append] at hm
  casesm* _ ∨ _
  all_goals rename_i hx
  all_goals first
    | exact htro hx
    | exact hsheet hx
    | exact hr1 hx
    | exact hr2 hx
    | exact absurd hx (by decide)

/-- The single-pass rewriting of a whole plain notation construct by
`_convert_tro_notations`. -/
theorem convertTro_plain (sh1 sh2 : EndpointShape) (nt : Chars)
    (h1 : sh1.wfB = true) (h2 : sh2.wfB = true) (hnt : troNotationForm nt) :
    convertTroNotations (sh1.render ++ (nt ++ sh2.render)) =
      troName nt ++ chars "(" ++ sh1.render ++ chars ":" ++ sh2.render ++ chars ")" := by
  obtain ⟨c, t, he, -⟩ := render_head_ref sh1 h1
  simp only [convertTroNotations]
  rw [reSubScan_id troSheetMatch _ _
    (fun tt ht => troSheetMatch_none tt
      (fun hmm => tro_no_bang sh1 sh2 nt h1 h2 hnt (ht.subset hmm)))]
  refine reSubScan_single troPlainMatch _ _ _ rfl
    (troPlainMatch_full sh1 sh2 nt h1 h2 hnt) ?_
  rw [he]
  simp

/-- The single-pass rewriting of a whole sheet-qualified notation construct by
`_convert_tro_notations`. -/
theorem convertTro_sheet (sheet : Chars) (sh1 sh2 : EndpointShape) (nt : Chars)
    (hs1 : sheet ≠ []) (hs2 : sheet.all isWordChar = true)
    (h1 : sh1.wfB = true) (h2 : sh2.wfB = true) (hnt : troNotationForm nt) :
    convertTroNotations (sheet ++ '!' :: (sh1.render ++ (nt ++ sh2.render))) =
      troName nt ++ chars "(" ++ (sheet ++ ['!']) ++ sh1.render ++ chars ":" ++
        (sheet ++ ['!']) ++ sh2.render ++ chars ")" := by
  obtain ⟨c, t, he⟩ := List.exists_cons_of_ne_nil hs1
  simp only [convertTroNotations]
  rw [reSubScan_single troSheetMatch _ _ _ rfl
    (troSheetMatch_full sheet sh1 sh2 nt hs1 hs2 h1 h2 hnt) (by rw [he]; simp)]
  exact reSubScan_id troPlainMatch _ _
    (fun tt ht => troPlainMatch_none tt
      (fun hmm => tro_out_no_dot sheet sh1 sh2 nt hs2 h1 h2 hnt (ht.subset hmm)))


/-- C9 counterexample: the claim quantifies over every formula and says each
adjacency form between two range endpoints is rewritten and that a sheet
qualifier, if present, is duplicated onto both endpoints.  Both universals
fail: a quoted sheet qualifier is not recognized by the sheet pattern
(`[A-Za-z0-9_]+!`), so on `\x27My Sheet\x27!A1.:B10` the qualifier is left
outside the call and is not duplicated; and when two adjacency forms overlap,
as in `=A1.:B10.:C5`, the second form is left unrewritten (the engine output
still contains `.:`). -/
theorem c9_counterexample_tro_not_universal :
    convertTroNotations (chars "\x27My Sheet\x27!A1.:B10") =
      chars "\x27My Sheet\x27!_TRO_LEADING(A1:B10)" ∧
    chars "\x27My Sheet\x27!_TRO_LEADING(A1:B10)" ≠
      chars "_TRO_LEADING(\x27My Sheet\x27!A1:\x27My Sheet\x27!B10)" ∧
    addFunctionPrefix (chars "=A1.:B10.:C5") =
      some (chars "=_xlfn._TRO_LEADING(A1:B10).:C5") ∧
    containsSub (chars "_xlfn._TRO_LEADING(A1:B10).:C5") (chars ".:") = true := by
  refine ⟨by decide, by decide, by decide, by decide⟩

/-- C9 amended: for every pair of endpoints drawn from the recognized endpoint
classes (column-letter run, row-number run, or cell reference, each part
optionally `$`-absolute) and each of the three adjacency forms, the construct
is rewritten into a call to its fixed function (`.:.` to _TRO_ALL, `:.` to
_TRO_TRAILING, `.:` to _TRO_LEADING) wrapping the ordinary colon range; an
unquoted sheet qualifier `[A-Za-z0-9_]+!`, if present, is duplicated onto both
endpoints inside the call; and through the engine the synthesized function
name receives the `_xlfn.` prefix, e.g. `=A1.:B10` becomes
`=_xlfn._TRO_LEADING(A1:B10)`.  The first two conjuncts are universal over all
endpoint shapes, notations, and word-character sheet names. -/
theorem c9_tro_desugaring_on_recognized_forms :
    (∀ (sh1 sh2 : EndpointShape) (nt : Chars),
        sh1.wfB = true → sh2.wfB = true → troNotationForm nt →
        convertTroNotations (sh1.render ++ (nt ++ sh2.render)) =
          troName nt ++ chars "(" ++ sh1.render ++ chars ":" ++ sh2.render ++
            chars ")") ∧
    (∀ (sheet : Chars) (sh1 sh2 : EndpointShape) (nt : Chars),
        sheet ≠ [] → sheet.all isWordChar = true →
        sh1.wfB = true → sh2.wfB = true → troNotationForm nt →
        convertTroNotations (sheet ++ '!' :: (sh1.render ++ (nt ++ sh2.render))) =
          troName nt ++ chars "(" ++ (sheet ++ ['!']) ++ sh1.render ++ chars ":" ++
            (sheet ++ ['!']) ++ sh2.render ++ chars ")") ∧
    addFunctionPrefix (chars "=A1.:.B10") = some (chars "=_xlfn._TRO_ALL(A1:B10)") ∧
    addFunctionPrefix (chars "=A1:.B10") = some (chars "=_xlfn._TRO_TRAILING(A1:B10)") ∧
    addFunctionPrefix (chars "=A1.:B10") = some (chars "=_xlfn._TRO_LEADING(A1:B10)") :=
  ⟨fun sh1 sh2 nt h1 h2 hnt => convertTro_plain sh1 sh2 nt h1 h2 hnt,
   fun sheet sh1 sh2 nt hs1 hs2 h1 h2 hnt =>
     convertTro_sheet sheet sh1 sh2 nt hs1 hs2 h1 h2 hnt,
   by decide, by decide, by decide⟩

/-- C9 witness: the universal conjuncts applied to the fully absolute
reference `$A$1`, a bare row number `10`, the `.:.` form, and to a
sheet-qualified `Data1!A1:.B` construct whose qualifier is duplicated. -/
theorem c9_tro_desugaring_on_recognized_forms_witness :
    ((EndpointShape.absColAbsRow (chars "A") (chars "1")).wfB = true ∧
     (EndpointShape.rowOnly (chars "10")).wfB = true ∧
     troNotationForm (chars ".:.") ∧
     convertTroNotations (chars "$A$1.:.10") = chars "_TRO_ALL($A$1:10)") ∧
    (chars "Data1" ≠ [] ∧ (chars "Data1").all isWordChar = true ∧
     convertTroNotations (chars "Data1!A1:.B") =
       chars "_TRO_TRAILING(Data1!A1:Data1!B)") := by
  refine ⟨⟨by decide, by decide, Or.inl rfl, ?_⟩, by decide, by decide, ?_⟩
  · have h := c9_tro_desugaring_on_recognized_forms.1
      (.absColAbsRow (chars "A") (chars "1")) (.rowOnly (chars "10")) (chars ".:.")
      (by decide) (by decide) (Or.inl rfl)
    simpa using h
  · have h := c9_tro_desugaring_on_recognized_forms.2.1 (chars "Data1")
      (.colRow (chars "A") (chars "1")) (.colOnly (chars "B")) (chars ":.")
      (by decide) (by decide) (by decide) (by decide) (Or.inr (Or.inl rfl))
    simpa using h

/-- C6 witness: the amended statement applied to the construct `_xlfn.LET(x,5)`
(two top-level arguments). -/
theorem c6_malformed_let_arity_left_unrewritten_witness :
    letParse (chars "_xlfn.LET(x,5)") = some (chars "_xlfn.LET(", chars "x,5") ∧
    (splitParts (chars "x,5")).length < 3 ∧
    addXlpmToLetVars (chars "_xlfn.LET(x,5)") = some (chars "_xlfn.LET(x,5)") :=
  ⟨by decide, by decide,
   c6_malformed_let_arity_left_unrewritten.2 (chars "_xlfn.LET(x,5)")
     (chars "_xlfn.LET(") (chars "x,5") (by decide) (Or.inl (by decide))⟩

/-- C7: for GROUPBY the 3rd and for PIVOTBY the 4th top-level argument, an
anonymous-function (LAMBDA) construct receives no `_xleta.` marker, while a
bare function name receives it exactly once; concretely
`=GROUPBY(E2:E7,F2:F7,SUM)` yields third argument `_xleta.SUM`.  The last two
conjuncts state the per-occurrence decision in general: a target argument
matching `\s*_xlfn\.LAMBDA\s*\(` is left alone, and a target argument matching
the bare-name pattern without an existing `_xleta.` receives a single
`_xleta.` marker (replacing an `_xlfn.` prefix when one is present). -/
theorem c7_aggregate_argument_exception :
    addFunctionPrefix (chars "=GROUPBY(E2:E7,F2:F7,SUM)") =
      some (chars "=_xlfn.GROUPBY(E2:E7,F2:F7,_xleta.SUM)") ∧
    addFunctionPrefix (chars "=GROUPBY(E2:E7,F2:F7,LAMBDA(x,MAX(x)))") =
      some (chars "=_xlfn.GROUPBY(E2:E7,F2:F7,_xlfn.LAMBDA(_xlpm.x,MAX(_xlpm.x)))") ∧
    addFunctionPrefix (chars "=PIVOTBY(H2:H7,I2:I7,J2:J7,SUM)") =
      some (chars "=_xlfn.PIVOTBY(H2:H7,I2:I7,J2:J7,_xleta.SUM)") ∧
    (∀ arg : Chars, isLambdaArg arg = true → xletaProcessArg arg = none) ∧
    (∀ arg g1 g2 g3 : Chars, isLambdaArg arg = false →
       aggArgMatch arg = some (g1, g2, g3) →
       containsSub arg (chars "_xleta.") = false →
       xletaProcessArg arg = some (g1 ++ chars "_xleta." ++
         (if (chars "_xlfn.").isPrefixOf g2 then g2.drop 6 else g2) ++ g3)) := by
  refine ⟨by decide, by decide, by decide, ?_, ?_⟩
  · intro arg h
    simp [xletaProcessArg, h]
  · intro arg g1 g2 g3 h1 h2 h3
    simp [xletaProcessArg, h1, h2, h3]

/-- C7 witness: the general conjuncts applied to the concrete target arguments
`_xlfn.LAMBDA(x,x)` (no marker) and ` SUM` (marker added once). -/
theorem c7_aggregate_argument_exception_witness :
    isLambdaArg (chars "_xlfn.LAMBDA(x,x)") = true ∧
    xletaProcessArg (chars "_xlfn.LAMBDA(x,x)") = none ∧
    aggArgMatch (chars " SUM") = some (chars " ", chars "SUM", ([] : Chars)) ∧
    xletaProcessArg (chars " SUM") = some (chars " _xleta.SUM") :=
  ⟨by decide,
   c7_aggregate_argument_exception.2.2.2.1 (chars "_xlfn.LAMBDA(x,x)") (by decide),
   by decide,
   c7_aggregate_argument_exception.2.2.2.2 (chars " SUM") (chars " ") (chars "SUM")
     ([] : Chars) (by decide) (by decide) (by decide)⟩

/-- C5: the engine rewrites `=LET(x,5,y,x+10,x+y)` to
`=_xlfn.LET(_xlpm.x,5,_xlpm.y,_xlpm.x+10,_xlpm.x+_xlpm.y)`; and in general the
binding loop of `_add_xlpm_to_let_vars` rewrites binding i's definition
expression using exactly the names of bindings 1..i-1 (the scope accumulated
before binding i) — never binding i's own name or any later binding's name —
while the final expression is rewritten with all binding names. -/
theorem c5_let_forward_reference_scope :
    addFunctionPrefix (chars "=LET(x,5,y,x+10,x+y)") =
      some (chars "=_xlfn.LET(_xlpm.x,5,_xlpm.y,_xlpm.x+10,_xlpm.x+_xlpm.y)") ∧
    ∀ (bs : List (Chars × Chars)) (finalExpr : Chars) (acc out : List Chars),
      (∀ p ∈ bs, p.2 ≠ ([] : Chars)) →
      letLoop (flattenPairs bs ++ [finalExpr]) acc = some out →
      (∀ i (h : i < bs.length),
          out.get? (2 * i) = some (chars "_xlpm." ++ pyStrip (bs.get ⟨i, h⟩).1) ∧
          out.get? (2 * i + 1) =
            replaceVarRefsOutsideStrings (bs.get ⟨i, h⟩).2
              (acc ++ (bs.take i).map (fun p => pyStrip p.1))) ∧
      out.get? (2 * bs.length) =
        replaceVarRefsOutsideStrings finalExpr
          (acc ++ bs.map (fun p => pyStrip p.1)) := by
  refine ⟨by decide, ?_⟩
  intro bs
  induction bs with
  | nil =>
    intro finalExpr acc out _ hrun
    simp only [flattenPairs, List.nil_append, letLoop] at hrun
    cases hr : replaceVarRefsOutsideStrings finalExpr acc with
    | none => rw [hr] at hrun; simp at hrun
    | some fe =>
      rw [hr] at hrun
      simp only [Option.map_some'] at hrun
      cases hrun
      refine ⟨fun i h => absurd h (by simp), ?_⟩
      simp [hr]
  | cons p bs ih =>
    intro finalExpr acc out hne hrun
    obtain ⟨a, b⟩ := p
    have hb : b ≠ [] := hne (a, b) (List.mem_cons_self _ _)
    simp only [flattenPairs, List.cons_append, letLoop] at hrun
    rw [if_neg hb] at hrun
    cases hrv : replaceVarRefsOutsideStrings b acc with
    | none => simp [hrv] at hrun
    | some pv =>
      cases hrec : letLoop (flattenPairs bs ++ [finalExpr]) (acc ++ [pyStrip a]) with
      | none => simp [hrv, List.append_eq, hrec] at hrun
      | some r =>
        simp only [hrv, List.append_eq, hrec] at hrun
        cases hrun
        have hne' : ∀ q ∈ bs, q.2 ≠ ([] : Chars) :=
          fun q hq => hne q (List.mem_cons_of_mem _ hq)
        have IH := ih finalExpr (acc ++ [pyStrip a]) r hne' hrec
        constructor
        · intro i h
          match i with
          | 0 =>
            refine ⟨rfl, ?_⟩
            simp [hrv]
          | Nat.succ j =>
            have hj : j < bs.length := by
              simpa [Nat.succ_lt_succ_iff] using h
            have H := IH.1 j hj
            have e2 : 2 * (j + 1) = (2 * j + 1) + 1 := by ring
            have e3 : 2 * (j + 1) + 1 = (2 * j + 1 + 1) + 1 := by ring
            constructor
            · rw [e2]
              simpa using H.1
            · rw [e3]
              have Hnames :
                  acc ++ (((a, b) :: bs).take (j + 1)).map (fun p => pyStrip p.1) =
                    (acc ++ [pyStrip a]) ++ (bs.take j).map (fun p => pyStrip p.1) := by
                simp [List.append_assoc]
              simpa [Hnames] using H.2
        · have e4 : 2 * (((a, b) :: bs).length) = (2 * bs.length + 1) + 1 := by
            simp [List.length_cons]; ring
          rw [e4]
          have Hnames :
              acc ++ (((a, b) :: bs).map (fun p => pyStrip p.1)) =
                (acc ++ [pyStrip a]) ++ bs.map (fun p => pyStrip p.1) := by
            simp [List.append_assoc]
          simpa [Hnames] using IH.2

/-- C5 witness: the general statement applied to the bindings of
`LET(x,5,y,x+10,x+y)`; binding 2's definition `x+10` is rewritten under
exactly the earlier name `x`. -/
theorem c5_let_forward_reference_scope_witness :
    ((∀ p ∈ letBindings, p.2 ≠ ([] : Chars)) ∧
     letLoop (flattenPairs letBindings ++ [chars "x+y"]) [] = some letOutParts) ∧
    letOutParts.get? 3 =
      replaceVarRefsOutsideStrings (chars "x+10")
        ([] ++ (letBindings.take 1).map (fun p => pyStrip p.1)) :=
  ⟨⟨by decide, by decide⟩,
   ((c5_let_forward_reference_scope.2 letBindings (chars "x+y") [] letOutParts
      (by decide) (by decide)).1 1 (by decide)).2⟩

/-- Helper for C10: `_set_attributes` appends the hyperlink, if present,
exactly once whenever it succeeds. -/
theorem setAttributes_hyperlinks (cell : CellM) (hls : List Nat)
    (v : CellValue) (a : List (Chars × Chars)) (hl' : List Nat)
    (h : setAttributes cell hls = .ok v a hl') :
    hl' = match cell.hyperlink with | some x => hls ++ [x] | none => hls := by
  unfold setAttributes at h
  split at h
  · cases h
  · cases h
    rfl

/-- C10: for every cell, a completed serialization by `etree_write_cell`
appends the cell's hyperlink (when present) to the owning sheet's hyperlink
collection exactly once, regardless of the cell's data type, formula cells
included; a cell without a hyperlink leaves the collection unchanged.  The
append happens only inside `_set_attributes`, which runs once per cell. -/
theorem c10_hyperlink_appended_once :
    ∀ (cell : CellM) (hls : List Nat) (xml : CellXml) (hls' : List Nat),
      etreeWriteCell cell hls = .ok (xml, hls') →
      hls' = match cell.hyperlink with | some h => hls ++ [h] | none => hls := by
  intro cell hls xml hls' h
  unfold etreeWriteCell at h
  cases hsa : setAttributes cell hls with
  | err e => rw [hsa] at h; cases h
  | ok value attrs hlmid =>
    rw [hsa] at h
    have hmid : hlmid = match cell.hyperlink with | some x => hls ++ [x] | none => hls :=
      setAttributes_hyperlinks cell hls value attrs hlmid hsa
    by_cases he : isEmptyValue value = true
    · simp only [he, if_true] at h
      cases h
      exact hmid
    · simp only [he] at h
      by_cases hf : cell.dataType = 'f'
      · simp only [hf, if_true] at h
        cases hfb : etreeFormulaBranch cell value with
        | error e =>
          rw [hfb] at h
          simp [Bind.bind, Except.bind] at h
        | ok fe =>
          rw [hfb] at h
          simp only [Bind.bind, Except.bind, pure, Except.pure] at h
          cases h
          exact hmid
      · simp only [hf] at h
        by_cases hs : cell.dataType = 's'
        · simp only [hs, if_true] at h
          cases h
          exact hmid
        · simp only [hs] at h
          cases h
          exact hmid

/-- C10 witness: a formula cell with a hyperlink appends it once. -/
theorem c10_hyperlink_appended_once_witness :
    ([3, 7] : List Nat) =
      (match linkedFormulaCell.hyperlink with
       | some h => [3] ++ [h]
       | none => ([3] : List Nat)) :=
  c10_hyperlink_appended_once linkedFormulaCell [3]
    { attrs := [(chars "r", chars "A1")],
      formula := some { attrib := [], fText := some (chars "SUM(A1)"), vText := none },
      vText := none, inlineStr := none }
    [3, 7] (by rfl)
